import Mathlib

/-! Raytracer linear algebra and reflection recursion: a shallow embedding of
`Raytracer.h`.

Every definition is generic in the scalar type `α` and uses only the operations
the source uses.  The C++ `float` is read in two ways:

* as an exact number: `α` is a (linearly ordered) field, so a definition can be
  evaluated over `ℚ` and reasoned about over `ℝ`;
* as the arithmetic the program runs: `α` is `Binary32`, IEEE 754 binary32 with
  every operation rounded once, to nearest with ties to even (no wider
  intermediate precision, no fused multiply-add), an integer operand being
  converted to `float` first.  `InverseAndTranspose32` is `InverseAndTranspose`
  in that arithmetic.

A C++ local declared without an initialiser (`Matrix submatrix;`) holds an
indeterminate value.  Each function that declares such a local takes that
indeterminate content as an explicit `uninit` argument, one per declaration
site and loop iteration, so that "the result does not depend on it" is a
statement that can be proved.

A counting `for` loop over `0 .. 3` is a left fold over the list of its index
values, in order.
-/

namespace Raytracer

/-- The macro `RT_SUCCESS`. -/
def RT_SUCCESS : Int := 0

/-- The macro `RT_FAILURE`. -/
def RT_FAILURE : Int := 1

/-- The macro `MAX_DEPTH`. -/
def MAX_DEPTH : Int := 5

/-- The struct `Vector3` (the `v[3]` view of the union is not used by any operation). -/
@[ext]
structure Vector3 (α : Type) where
  x : α
  y : α
  z : α

namespace Vector3

variable {α : Type}

/-- `Vector3 operator/(const float scalar)`. -/
def div [Div α] (self : Vector3 α) (scalar : α) : Vector3 α :=
  ⟨self.x / scalar, self.y / scalar, self.z / scalar⟩

/-- `Vector3 operator*(const float scalar)`. -/
def mulScalar [Mul α] (self : Vector3 α) (scalar : α) : Vector3 α :=
  ⟨self.x * scalar, self.y * scalar, self.z * scalar⟩

/-- `Vector3 operator*(const Vector3& other)`, component wise. -/
def mul [Mul α] (self other : Vector3 α) : Vector3 α :=
  ⟨self.x * other.x, self.y * other.y, self.z * other.z⟩

/-- `Vector3 operator-(const Vector3& other)`. -/
def sub [Sub α] (self other : Vector3 α) : Vector3 α :=
  ⟨self.x - other.x, self.y - other.y, self.z - other.z⟩

/-- `Vector3 operator+(const Vector3& other)`. -/
def add [Add α] (self other : Vector3 α) : Vector3 α :=
  ⟨self.x + other.x, self.y + other.y, self.z + other.z⟩

/-- `void normalize()`: the vector after the in-place update.  `sqrt` stands for
`std::sqrt`. -/
def normalize [Add α] [Mul α] [Div α] (sqrt : α → α) (self : Vector3 α) : Vector3 α :=
  let length := sqrt (self.x * self.x + self.y * self.y + self.z * self.z)
  ⟨self.x / length, self.y / length, self.z / length⟩

/-- `static Vector3 cross(a, b)`. -/
def cross [Mul α] [Sub α] (a b : Vector3 α) : Vector3 α :=
  ⟨a.y * b.z - a.z * b.y, a.z * b.x - a.x * b.z, a.x * b.y - a.y * b.x⟩

/-- `float dot(const Vector3& other)` (the static and member overloads compute the same). -/
def dot [Add α] [Mul α] (self other : Vector3 α) : α :=
  self.x * other.x + self.y * other.y + self.z * other.z

/-- `static Vector3 reflect(const Vector3& I, const Vector3& N)`. -/
def reflect [Add α] [Mul α] [Sub α] [OfNat α 2] (I N : Vector3 α) : Vector3 α :=
  let IDotN := I.dot N
  let IDotN := IDotN * 2
  let _N := N.mulScalar IDotN
  I.sub _N

end Vector3

/-- The struct `Matrix`: `float m[4][4]`. -/
@[ext]
structure Matrix (α : Type) where
  m : Fin 4 → Fin 4 → α

namespace Matrix

variable {α : Type}

/-- The assignment `M.m[i][j] = v` for integer indices `i`, `j`. -/
def set (M : Matrix α) (i j : Nat) (v : α) : Matrix α :=
  ⟨fun a b => if a.val = i ∧ b.val = j then v else M.m a b⟩

/-- `Matrix operator*(const Matrix& other)`; `uninit` is the content of the
local `result` at its declaration. -/
def mul [Zero α] [Add α] [Mul α] (uninit : Matrix α) (self other : Matrix α) : Matrix α :=
  ([0, 1, 2, 3] : List (Fin 4)).foldl (fun (result : Matrix α) (i : Fin 4) =>
    ([0, 1, 2, 3] : List (Fin 4)).foldl (fun (result : Matrix α) (j : Fin 4) =>
      let result := result.set i.val j.val 0
      ([0, 1, 2, 3] : List (Fin 4)).foldl (fun (result : Matrix α) (k : Fin 4) =>
        result.set i.val j.val (result.m i j + self.m i k * other.m k j)) result) result) uninit

/-- `Matrix transpose()`; `uninit` is the content of the local `result` at its
declaration. -/
def transpose (uninit : Matrix α) (self : Matrix α) : Matrix α :=
  ([0, 1, 2, 3] : List (Fin 4)).foldl (fun (result : Matrix α) (i : Fin 4) =>
    ([0, 1, 2, 3] : List (Fin 4)).foldl (fun (result : Matrix α) (j : Fin 4) =>
      result.set i.val j.val (self.m j i)) result) uninit

/-- `Vector3 TransformPoint(const Vector3& point)`. -/
def TransformPoint [Add α] [Mul α] (self : Matrix α) (point : Vector3 α) : Vector3 α :=
  let x := self.m 0 0 * point.x + self.m 0 1 * point.y + self.m 0 2 * point.z + self.m 0 3
  let y := self.m 1 0 * point.x + self.m 1 1 * point.y + self.m 1 2 * point.z + self.m 1 3
  let z := self.m 2 0 * point.x + self.m 2 1 * point.y + self.m 2 2 * point.z + self.m 2 3
  ⟨x, y, z⟩

/-- `static float Determinant3x3(const Matrix& matrix)`. -/
def Determinant3x3 [Add α] [Mul α] [Sub α] (matrix : Matrix α) : α :=
  matrix.m 0 0 * (matrix.m 1 1 * matrix.m 2 2 - matrix.m 1 2 * matrix.m 2 1) -
    matrix.m 0 1 * (matrix.m 1 0 * matrix.m 2 2 - matrix.m 1 2 * matrix.m 2 0) +
    matrix.m 0 2 * (matrix.m 1 0 * matrix.m 2 1 - matrix.m 1 1 * matrix.m 2 0)

/-- `static float Determinant(const Matrix& matrix)`; `uninit i` is the content
of the local `submatrix` when it is declared in iteration `i`. -/
def Determinant [Zero α] [One α] [Neg α] [Add α] [Mul α] [Sub α] (uninit : Fin 4 → Matrix α)
    (matrix : Matrix α) : α :=
  ([0, 1, 2, 3] : List (Fin 4)).foldl (fun (det : α) (i : Fin 4) =>
    let submatrix := ([1, 2, 3] : List (Fin 4)).foldl (fun (submatrix : Matrix α) (j : Fin 4) =>
      ([0, 1, 2, 3] : List (Fin 4)).foldl (fun (submatrix : Matrix α) (k : Fin 4) =>
        if k < i then submatrix.set (j.val - 1) k.val (matrix.m j k)
        else if k > i then submatrix.set (j.val - 1) (k.val - 1) (matrix.m j k)
        else submatrix) submatrix) (uninit i)
    det + (if i.val % 2 = 0 then 1 else -1) * matrix.m 0 i * Determinant3x3 submatrix) 0

/-- The local `submatrix` of `Adjoint` after its two inner loops (over `k` and
`l`) in iteration `(i, j)`; `uninit` is its content at the declaration, and
`subi`, `subj` are the two counters of the source, carried in the loop state. -/
def AdjointSubmatrix (uninit matrix : Matrix α) (i j : Fin 4) : Matrix α :=
  let submatrix := uninit
  let subi : Nat := 0
  let st := ([0, 1, 2, 3] : List (Fin 4)).foldl (fun (st : Matrix α × Nat) (k : Fin 4) =>
    if k = i then st
    else
      let subj : Nat := 0
      let st2 := ([0, 1, 2, 3] : List (Fin 4)).foldl (fun (st2 : Matrix α × Nat) (l : Fin 4) =>
        if l = j then st2
        else (st2.1.set st.2 st2.2 (matrix.m k l), st2.2 + 1)) (st.1, subj)
      (st2.1, st.2 + 1)) (submatrix, subi)
  st.1

/-- `static void Adjoint(const Matrix& matrix, Matrix& adjoint)`: the content of
`adjoint` after the call.  `uninit i j` is the content of the local `submatrix`
when it is declared in iteration `(i, j)`. -/
def Adjoint [Neg α] [Add α] [Mul α] [Sub α] (uninit : Fin 4 → Fin 4 → Matrix α)
    (matrix adjoint : Matrix α) : Matrix α :=
  ([0, 1, 2, 3] : List (Fin 4)).foldl (fun (adjoint : Matrix α) (i : Fin 4) =>
    ([0, 1, 2, 3] : List (Fin 4)).foldl (fun (adjoint : Matrix α) (j : Fin 4) =>
      let submatrix := AdjointSubmatrix (uninit i j) matrix i j
      let cofactor := Determinant3x3 submatrix
      let cofactor := if (i.val + j.val) % 2 ≠ 0 then -cofactor else cofactor
      adjoint.set j.val i.val cofactor) adjoint) adjoint

/-- The indeterminate contents of the uninitialised locals that one call of
`InverseAndTranspose` declares, directly or in `Determinant` and `Adjoint`. -/
structure Uninit (α : Type) where
  detSub : Fin 4 → Matrix α
  adjSub : Fin 4 → Fin 4 → Matrix α
  adjoint : Matrix α
  invMatrix : Matrix α

/-- The matrix `invMatrix` of `InverseAndTranspose` after the first double loop;
`uninit` is its content at the declaration. -/
def invMatrixOf [Div α] (uninit adjoint : Matrix α) (det : α) : Matrix α :=
  ([0, 1, 2, 3] : List (Fin 4)).foldl (fun (invMatrix : Matrix α) (i : Fin 4) =>
    ([0, 1, 2, 3] : List (Fin 4)).foldl (fun (invMatrix : Matrix α) (j : Fin 4) =>
      invMatrix.set i.val j.val (adjoint.m i j / det)) invMatrix) uninit

/-- The three write phases of `InverseAndTranspose` on `result`: the transposed
3x3 block, the copied fourth row and column, the corner. -/
def writeResult [One α] (invMatrix result : Matrix α) : Matrix α :=
  let result := ([0, 1, 2] : List (Fin 4)).foldl (fun (result : Matrix α) (i : Fin 4) =>
    ([0, 1, 2] : List (Fin 4)).foldl (fun (result : Matrix α) (j : Fin 4) =>
      result.set i.val j.val (invMatrix.m j i)) result) result
  let result := ([0, 1, 2, 3] : List (Fin 4)).foldl (fun (result : Matrix α) (i : Fin 4) =>
    let result := result.set 3 i.val (invMatrix.m 3 i)
    result.set i.val 3 (invMatrix.m i 3)) result
  result.set 3 3 1

/-- `static int InverseAndTranspose(const Matrix& matrix, Matrix& result)`: the
returned status and the content of `result` after the call. -/
def InverseAndTranspose [LinearOrderedField α] (u : Uninit α) (matrix result : Matrix α) :
    Int × Matrix α :=
  let det := Determinant u.detSub matrix
  if |det| < 1e-10 then (RT_FAILURE, result)
  else
    let adjoint := Adjoint u.adjSub matrix u.adjoint
    let invMatrix := invMatrixOf u.invMatrix adjoint det
    (RT_SUCCESS, writeResult invMatrix result)

end Matrix

/-- The struct `Material`. -/
structure Material (α : Type) where
  surfaceColor : Vector3 α
  Ka : α
  Kd : α
  Ks : α
  Kt : α
  specularExponet : α
  textureId : String
  reflective : Bool
  reflectionStrength : α

/-- The struct `RaycastHitInfo`. -/
structure RaycastHitInfo (α : Type) where
  hitPoint : Vector3 α
  normal : Vector3 α
  distance : α
  material : Material α

/-- The struct `Ray`. -/
structure Ray (α : Type) where
  origin : Vector3 α
  direction : Vector3 α

/-- Modelled from the spec: the collaborators of `Raycast`, none of which has
code in `Raytracer.h`.  `nearestHit` is the scene-wide nearest-hit query of the
intersection engine, `localIllumination` the local colour of a hit (ambient,
diffuse and specular terms, shadow tests included), `background` the fixed
background colour and `EPSILON` the offset along the normal. -/
structure Engine (α : Type) where
  nearestHit : Ray α → Option (RaycastHitInfo α)
  localIllumination : Ray α → RaycastHitInfo α → Vector3 α
  background : Vector3 α
  EPSILON : α

/-- Modelled from the spec: `MixColors` is declared in `Raytracer.h` without a
body; the spec gives the linear interpolation `color1·(1−t) + color2·t`. -/
def MixColors {α : Type} [Ring α] (color1 color2 : Vector3 α) (blendFactor : α) : Vector3 α :=
  (color1.mulScalar (1 - blendFactor)).add (color2.mulScalar blendFactor)

/-- What one call of `Raycast` yields: whether the ray hit anything, the colour
assembled for it, and the `depth` argument of every `Raycast` call made to
compute it, this call first. -/
structure RaycastOutcome (α : Type) where
  hit : Bool
  color : Vector3 α
  depths : List Int

/-- Modelled from the spec: `Raycast(ray, hitInfo, depth)` is declared in
`Raytracer.h` without a body.  Per the spec: a ray that hits nothing yields the
background colour; on a hit the local illumination is computed, and if the
material is flagged reflective and `depth < MAX_DEPTH` a reflected ray (direction
`Vector3::reflect`, origin the hit point offset along the normal by epsilon) is
cast with `depth + 1` and blended in by the reflection strength. -/
def Raycast {α : Type} [Ring α] (engine : Engine α) (ray : Ray α) (depth : Int) :
    RaycastOutcome α :=
  match engine.nearestHit ray with
  | none => ⟨false, engine.background, [depth]⟩
  | some hitInfo =>
    let localColor := engine.localIllumination ray hitInfo
    if h : hitInfo.material.reflective = true ∧ depth < MAX_DEPTH then
      let direction := Vector3.reflect ray.direction hitInfo.normal
      let origin := hitInfo.hitPoint.add (hitInfo.normal.mulScalar engine.EPSILON)
      let reflected := Raycast engine ⟨origin, direction⟩ (depth + 1)
      ⟨true, MixColors localColor reflected.color hitInfo.material.reflectionStrength,
        depth :: reflected.depths⟩
    else ⟨true, localColor, [depth]⟩
termination_by (MAX_DEPTH - depth).toNat
decreasing_by
  have := h.2
  omega

/-- A division that reports a zero divisor: `none` stands for a division by zero. -/
def checkedDiv {α : Type} [DecidableEq α] [Zero α] [Div α] (a b : α) : Option α :=
  if b = 0 then none else some (a / b)

/-- `Vector3 operator/(const float scalar)` with every division checked. -/
def Vector3.divChecked {α : Type} [DecidableEq α] [Zero α] [Div α] (self : Vector3 α)
    (scalar : α) : Option (Vector3 α) :=
  (checkedDiv self.x scalar).bind fun x =>
  (checkedDiv self.y scalar).bind fun y =>
  (checkedDiv self.z scalar).bind fun z =>
  some ⟨x, y, z⟩

/-- `void normalize()` with every division checked. -/
def Vector3.normalizeChecked {α : Type} [DecidableEq α] [Zero α] [Add α] [Mul α] [Div α]
    (sqrt : α → α) (self : Vector3 α) : Option (Vector3 α) :=
  let length := sqrt (self.x * self.x + self.y * self.y + self.z * self.z)
  (checkedDiv self.x length).bind fun x =>
  (checkedDiv self.y length).bind fun y =>
  (checkedDiv self.z length).bind fun z =>
  some ⟨x, y, z⟩

/-- The first double loop of `InverseAndTranspose` with every division checked. -/
def Matrix.invMatrixOfChecked {α : Type} [Field α] [DecidableEq α] (uninit adjoint : Matrix α)
    (det : α) : Option (Matrix α) :=
  ([0, 1, 2, 3] : List (Fin 4)).foldlM (fun (invMatrix : Matrix α) (i : Fin 4) =>
    ([0, 1, 2, 3] : List (Fin 4)).foldlM (fun (invMatrix : Matrix α) (j : Fin 4) =>
      (checkedDiv (adjoint.m i j) det).bind fun q =>
      some (invMatrix.set i.val j.val q)) invMatrix) uninit

/-- `InverseAndTranspose` with every division checked: `none` stands for a
division by zero, `some` carries the status and the content of `result`. -/
def Matrix.InverseAndTransposeChecked {α : Type} [LinearOrderedField α] (u : Matrix.Uninit α)
    (matrix result : Matrix α) : Option (Int × Matrix α) :=
  let det := Matrix.Determinant u.detSub matrix
  if |det| < 1e-10 then some (RT_FAILURE, result)
  else
    let adjoint := Matrix.Adjoint u.adjSub matrix u.adjoint
    (Matrix.invMatrixOfChecked u.invMatrix adjoint det).bind fun invMatrix =>
    some (RT_SUCCESS, Matrix.writeResult invMatrix result)

/-- A value of the C++ type `float`, read as IEEE 754 binary32.  A finite value
is a sign and a natural number of units of `2^-149` (the smallest positive
binary32; every finite binary32 is a whole number of these units, and both
zeros are values); the other values are the two infinities and NaN (one NaN,
payloads are not told apart). -/
inductive Binary32 where
  | finite (negative : Bool) (units : Nat)
  | inf (negative : Bool)
  | nan
deriving DecidableEq

namespace Binary32

/-- One step of `bitLength`: drop `width` binary digits if there are more than `width`. -/
def bitStep (width : Nat) (state : Nat × Nat) : Nat × Nat :=
  if state.1 ≥ 2 ^ width then (state.1 / 2 ^ width, state.2 + width) else state

/-- The number of binary digits of `n`, for `n < 2 ^ 512`. -/
def bitLength (n : Nat) : Nat :=
  let state := bitStep 1 (bitStep 2 (bitStep 4 (bitStep 8 (bitStep 16 (bitStep 32
    (bitStep 64 (bitStep 128 (bitStep 256 (n, 0)))))))))
  if state.1 = 0 then state.2 else state.2 + 1

/-- Rounding to binary32, to nearest with ties to even: the binary32 value
nearest to `num / den` units of `2^-149` with the given sign (`den` positive).
Up to 24 binary digits are kept, never finer than one unit (subnormal values);
a rounded magnitude of `2^128` or more is an infinity. -/
def roundUnits (negative : Bool) (num den : Nat) : Binary32 :=
  let length := bitLength (num / den)
  let shift := length - 24
  let scaled := den * 2 ^ shift
  let mantissa := num / scaled
  let rest := num % scaled
  let rounded :=
    if 2 * rest > scaled ∨ (2 * rest = scaled ∧ mantissa % 2 = 1) then mantissa + 1 else mantissa
  let magnitude := rounded * 2 ^ shift
  if magnitude ≥ 2 ^ 128 * 2 ^ 149 then inf negative else finite negative magnitude

/-- The conversion of a natural number to `float`. -/
def ofNat (n : Nat) : Binary32 :=
  roundUnits false (n * 2 ^ 149) 1

/-- The conversion of an integer to `float`. -/
def ofInt (n : Int) : Binary32 :=
  roundUnits (decide (n < 0)) (n.natAbs * 2 ^ 149) 1

/-- Unary minus: the sign is flipped, also on zeros and infinities. -/
def neg : Binary32 → Binary32
  | finite s k => finite (!s) k
  | inf s => inf (!s)
  | nan => nan

/-- The sum, rounded once.  An exact sum of zero from opposite signs is `+0`. -/
def add : Binary32 → Binary32 → Binary32
  | finite s a, finite t b =>
    if s = t then roundUnits s (a + b) 1
    else if a > b then roundUnits s (a - b) 1
    else if b > a then roundUnits t (b - a) 1
    else finite false 0
  | finite _ _, inf t => inf t
  | inf s, finite _ _ => inf s
  | inf s, inf t => if s = t then inf s else nan
  | _, _ => nan

/-- The product, rounded once; `0 * inf` is NaN. -/
def mul : Binary32 → Binary32 → Binary32
  | finite s a, finite t b => roundUnits (s != t) (a * b) (2 ^ 149)
  | finite s a, inf t => if a = 0 then nan else inf (s != t)
  | inf s, finite t b => if b = 0 then nan else inf (s != t)
  | inf s, inf t => inf (s != t)
  | _, _ => nan

/-- The quotient, rounded once; `x / 0` is an infinity, `0 / 0` and `inf / inf` NaN. -/
def div : Binary32 → Binary32 → Binary32
  | finite s a, finite t b =>
    if b = 0 then (if a = 0 then nan else inf (s != t))
    else roundUnits (s != t) (a * 2 ^ 149) b
  | finite s _, inf t => finite (s != t) 0
  | inf s, finite t _ => inf (s != t)
  | _, _ => nan

instance : Neg Binary32 := ⟨neg⟩

instance : Add Binary32 := ⟨add⟩

instance : Sub Binary32 := ⟨fun a b => add a (neg b)⟩

instance : Mul Binary32 := ⟨mul⟩

instance : Div Binary32 := ⟨div⟩

instance : Zero Binary32 := ⟨ofNat 0⟩

instance : One Binary32 := ⟨ofNat 1⟩

instance (n : Nat) : OfNat Binary32 n := ⟨ofNat n⟩

instance : IntCast Binary32 := ⟨ofInt⟩

/-- The test `fabs(det) < 1e-10` of `InverseAndTranspose` on a `float`: the
value is promoted to `double` without change and compared with the `double`
literal `1e-10`, which is `0x1.b7cdfd9d7bdbbp-34`, that is
`0x1b7cdfd9d7bdbb * 2^63` units; infinities and NaN compare false. -/
def belowSingularThreshold : Binary32 → Bool
  | finite _ k => decide (k < 0x1b7cdfd9d7bdbb * 2 ^ 63)
  | _ => false

/-- The rational value of a finite binary32; none for an infinity or NaN. -/
def toRat? : Binary32 → Option ℚ
  | finite s k => some ((if s then -1 else 1) * (k : ℚ) / 2 ^ 149)
  | _ => none

end Binary32

/-- `Matrix::InverseAndTranspose` at the type `float`: the body of
`Matrix.InverseAndTranspose` with every operation rounded to binary32 and the
singularity test done as the source does it, in `double`. -/
def Matrix.InverseAndTranspose32 (u : Matrix.Uninit Binary32)
    (matrix result : Matrix Binary32) : Int × Matrix Binary32 :=
  let det := Matrix.Determinant u.detSub matrix
  if det.belowSingularThreshold then (RT_FAILURE, result)
  else
    let adjoint := Matrix.Adjoint u.adjSub matrix u.adjoint
    let invMatrix := Matrix.invMatrixOf u.invMatrix adjoint det
    (RT_SUCCESS, Matrix.writeResult invMatrix result)

end Raytracer

/-! ## Vocabulary of the statements -/

namespace RaytracerSpec

variable {α : Type}

/-- The upper-left 3x3 block of a matrix (its linear part), as a 3x3 matrix. -/
def upper3 (M : Raytracer.Matrix α) : Matrix (Fin 3) (Fin 3) α :=
  Matrix.of fun i j => M.m i.castSucc j.castSucc

/-- The 4x4 matrix with `d` on the diagonal and zero elsewhere. -/
def scalar4 [Zero α] (d : α) : Raytracer.Matrix α :=
  ⟨fun i j => if i = j then d else 0⟩

/-- The 4x4 matrix that is the identity with `t` in the first three entries of
the fourth column. -/
def translation4 [Zero α] [One α] (t : Raytracer.Vector3 α) : Raytracer.Matrix α :=
  ⟨![![1, 0, 0, t.x], ![0, 1, 0, t.y], ![0, 0, 1, t.z], ![0, 0, 0, 1]]⟩

/-- A sample model matrix: the non-uniform scale `(2, 3, 4)` followed by the
translation `(5, 6, 7)`. -/
def sampleModel : Raytracer.Matrix ℚ :=
  ⟨![![2, 0, 0, 5], ![0, 3, 0, 6], ![0, 0, 4, 7], ![0, 0, 0, 1]]⟩

/-- A sample content for matrices that the code never initialises. -/
def sampleJunk : Raytracer.Matrix ℚ :=
  ⟨fun _ _ => 77⟩

/-- A sample content for the uninitialised locals of `InverseAndTranspose`. -/
def sampleUninit : Raytracer.Matrix.Uninit ℚ :=
  ⟨fun _ => sampleJunk, fun _ _ => sampleJunk, sampleJunk, sampleJunk⟩

/-- Two mutually facing mirrors: every ray hits a reflective surface. -/
def facingMirrors : Raytracer.Engine ℚ :=
  { nearestHit := fun ray =>
      some ⟨ray.origin, ⟨0, 0, 1⟩, 1, ⟨⟨1, 1, 1⟩, 0, 0, 0, 0, 1, "", true, 1 / 2⟩⟩
    localIllumination := fun _ hitInfo => hitInfo.material.surfaceColor
    background := ⟨0, 0, 0⟩
    EPSILON := 1 / 100000 }

/-- The model matrix of a pure scale `s`. -/
def scale4 [Zero α] [One α] (s : Raytracer.Vector3 α) : Raytracer.Matrix α :=
  ⟨![![s.x, 0, 0, 0], ![0, s.y, 0, 0], ![0, 0, s.z, 0], ![0, 0, 0, 1]]⟩

/-- The uniform scale by `1e-4`: invertible, with determinant `1e-12`. -/
def tinyScale : Raytracer.Matrix ℚ :=
  scale4 ⟨1 / 10000, 1 / 10000, 1 / 10000⟩

/-- The translation column of a matrix: the first three entries of its fourth column. -/
def translationOf (M : Raytracer.Matrix α) : Fin 3 → α :=
  fun i => M.m i.castSucc 3

/-- The matrix with the given integer entries, in any scalar type. -/
def intMatrix [IntCast α] (entries : Fin 4 → Fin 4 → ℤ) : Raytracer.Matrix α :=
  ⟨fun i j => (entries i j : α)⟩

/-- The rational values of the entries of a `float` matrix (zero where an entry
is not finite). -/
def ratMatrix (M : Raytracer.Matrix Raytracer.Binary32) : Raytracer.Matrix ℚ :=
  ⟨fun i j => ((M.m i j).toRat?).getD 0⟩

/-- A singular integer matrix: the third row of its linear part is a combination
of the first two, and its fourth row is `(0,0,0,1)`. -/
def singularEntries : Fin 4 → Fin 4 → ℤ :=
  ![![-161, -317, -239, 0], ![57, 264, -262, 0], ![-104, -53, -501, 0], ![0, 0, 0, 1]]

/-- The scale by `(4097, 4097, 1)`. -/
def bigScaleEntries : Fin 4 → Fin 4 → ℤ :=
  ![![4097, 0, 0, 0], ![0, 4097, 0, 0], ![0, 0, 1, 0], ![0, 0, 0, 1]]

/-- A model matrix with determinant exactly 1 and entries near `2^12`. -/
def shearEntries : Fin 4 → Fin 4 → ℤ :=
  ![![4097, 4098, 0, 0], ![4096, 4097, 0, 0], ![0, 0, 1, 0], ![0, 0, 0, 1]]

/-- A model matrix with determinant exactly -3 and entries near `2^12`. -/
def skewEntries : Fin 4 → Fin 4 → ℤ :=
  ![![4095, 4096, 0, 0], ![4096, 4097, 0, 0], ![0, 0, 3, 0], ![0, 0, 0, 1]]

/-- A model matrix with determinant exactly 3 and translation `(8, 4, 0)`. -/
def shiftedEntries : Fin 4 → Fin 4 → ℤ :=
  ![![4097, 4096, 0, 8], ![4100, 4099, 0, 4], ![0, 0, 1, 0], ![0, 0, 0, 1]]

/-- The scale by `(3, 1, 1)`. -/
def tripleEntries : Fin 4 → Fin 4 → ℤ :=
  ![![3, 0, 0, 0], ![0, 1, 0, 0], ![0, 0, 1, 0], ![0, 0, 0, 1]]

/-- The translation by `(2^24, 0, 0)`. -/
def farShiftEntries : Fin 4 → Fin 4 → ℤ :=
  ![![1, 0, 0, 16777216], ![0, 1, 0, 0], ![0, 0, 1, 0], ![0, 0, 0, 1]]

/-- A sample content for `float` matrices that the code never initialises. -/
def sampleJunk32 : Raytracer.Matrix Raytracer.Binary32 :=
  ⟨fun _ _ => 77⟩

/-- A sample content for the uninitialised locals of `InverseAndTranspose` at `float`. -/
def sampleUninit32 : Raytracer.Matrix.Uninit Raytracer.Binary32 :=
  ⟨fun _ => sampleJunk32, fun _ _ => sampleJunk32, sampleJunk32, sampleJunk32⟩

/-- The incident vector `(2^127, 0, 0)`, a finite `float` in each component. -/
def hugeIncident32 : Raytracer.Vector3 Raytracer.Binary32 :=
  ⟨Raytracer.Binary32.ofNat (2 ^ 127), 0, 0⟩

/-- The unit normal `(1, 0, 0)`. -/
def axisNormal32 : Raytracer.Vector3 Raytracer.Binary32 :=
  ⟨1, 0, 0⟩

/-- The normal `(0.6f, 0.8f, 0)`: the `float` values nearest to `3/5` and `4/5`. -/
def slantNormal32 : Raytracer.Vector3 Raytracer.Binary32 :=
  ⟨3 / 5, 4 / 5, 0⟩

/-- The incident vector `(1, 2, 3)`. -/
def sampleIncident32 : Raytracer.Vector3 Raytracer.Binary32 :=
  ⟨1, 2, 3⟩

end RaytracerSpec


/-! ## Auxiliary facts about the embedding -/

namespace RaytracerAux

variable {α : Type}

theorem val_two : ((2 : Fin 4) : ℕ) = 2 := rfl

theorem val_three : ((3 : Fin 4) : ℕ) = 3 := rfl

/-- Reading an entry after one assignment. -/
theorem set_m (M : Raytracer.Matrix α) (i j : Nat) (v : α) (a b : Fin 4) :
    (M.set i j v).m a b = if a.val = i ∧ b.val = j then v else M.m a b := rfl

/-- A double loop that assigns `f i j` to entry `(i, j)` overwrites the whole matrix. -/
theorem fill_all (f : Fin 4 → Fin 4 → α) (r : Raytracer.Matrix α) :
    ([0, 1, 2, 3] : List (Fin 4)).foldl (fun (result : Raytracer.Matrix α) (i : Fin 4) =>
      ([0, 1, 2, 3] : List (Fin 4)).foldl (fun (result : Raytracer.Matrix α) (j : Fin 4) =>
        result.set i.val j.val (f i j)) result) r = ⟨f⟩ := by
  simp only [List.foldl]
  ext a b
  fin_cases a <;> fin_cases b <;> simp [set_m, val_two, val_three]

/-- A double loop that assigns `f i j` to entry `(j, i)` overwrites the whole matrix. -/
theorem fill_all_swap (f : Fin 4 → Fin 4 → α) (r : Raytracer.Matrix α) :
    ([0, 1, 2, 3] : List (Fin 4)).foldl (fun (result : Raytracer.Matrix α) (i : Fin 4) =>
      ([0, 1, 2, 3] : List (Fin 4)).foldl (fun (result : Raytracer.Matrix α) (j : Fin 4) =>
        result.set j.val i.val (f i j)) result) r = ⟨fun a b => f b a⟩ := by
  simp only [List.foldl]
  ext a b
  fin_cases a <;> fin_cases b <;> simp [set_m, val_two, val_three]

/-- The Leibniz determinant of a 4x4 matrix, expanded along the first row. -/
theorem det_fin_four {R : Type} [CommRing R] (A : Matrix (Fin 4) (Fin 4) R) :
    A.det =
      A 0 0 * (A 1 1 * (A 2 2 * A 3 3 - A 2 3 * A 3 2) - A 1 2 * (A 2 1 * A 3 3 - A 2 3 * A 3 1)
          + A 1 3 * (A 2 1 * A 3 2 - A 2 2 * A 3 1))
      - A 0 1 * (A 1 0 * (A 2 2 * A 3 3 - A 2 3 * A 3 2) - A 1 2 * (A 2 0 * A 3 3 - A 2 3 * A 3 0)
          + A 1 3 * (A 2 0 * A 3 2 - A 2 2 * A 3 0))
      + A 0 2 * (A 1 0 * (A 2 1 * A 3 3 - A 2 3 * A 3 1) - A 1 1 * (A 2 0 * A 3 3 - A 2 3 * A 3 0)
          + A 1 3 * (A 2 0 * A 3 1 - A 2 1 * A 3 0))
      - A 0 3 * (A 1 0 * (A 2 1 * A 3 2 - A 2 2 * A 3 1) - A 1 1 * (A 2 0 * A 3 2 - A 2 2 * A 3 0)
          + A 1 2 * (A 2 0 * A 3 1 - A 2 1 * A 3 0)) := by
  have e1 : (Fin.succ 2 : Fin 4) = 3 := rfl
  have e2 : (Fin.succAbove 1 2 : Fin 4) = 3 := rfl
  have e3 : (Fin.succAbove 2 2 : Fin 4) = 3 := rfl
  have e4 : (Fin.castSucc 2 : Fin 4) = 2 := rfl
  have e5 : (Fin.succAbove 3 2 : Fin 4) = 2 := rfl
  simp [Matrix.det_succ_row_zero, Fin.sum_univ_succ, Matrix.det_fin_three, e1, e2, e3, e4, e5]
  ring

/-- The code's determinant is the determinant, whatever the unwritten entries hold. -/
theorem Determinant_eq_det [CommRing α] (u : Fin 4 → Raytracer.Matrix α)
    (M : Raytracer.Matrix α) :
    Raytracer.Matrix.Determinant u M = Matrix.det (Matrix.of M.m) := by
  simp only [Raytracer.Matrix.Determinant, List.foldl, Raytracer.Matrix.Determinant3x3]
  simp [set_m, val_three, val_two, det_fin_four]
  ring

/-- The submatrix built in iteration `(i, j)` of `Adjoint` holds `matrix` without
row `i` and column `j` in its upper-left 3x3 block. -/
theorem AdjointSubmatrix_m (u M : Raytracer.Matrix α) (i j : Fin 4) (a b : Fin 3) :
    (Raytracer.Matrix.AdjointSubmatrix u M i j).m a.castSucc b.castSucc
      = M.m (i.succAbove a) (j.succAbove b) := by
  simp only [Raytracer.Matrix.AdjointSubmatrix, List.foldl]
  fin_cases i <;> fin_cases j <;> fin_cases a <;> fin_cases b <;>
    simp [set_m, val_two, val_three] <;> rfl

/-- The parity test of `Adjoint` is the sign of the cofactor. -/
theorem cofactor_sign [CommRing α] (i j : Nat) (c : α) :
    (if (i + j) % 2 ≠ 0 then -c else c) = (-1) ^ (i + j) * c := by
  rcases Nat.even_or_odd (i + j) with h | h
  · have h2 : (i + j) % 2 = 0 := Nat.even_iff.mp h
    simp [h2, h.neg_one_pow]
  · have h2 : (i + j) % 2 = 1 := Nat.odd_iff.mp h
    simp [h2, h.neg_one_pow]

/-- The 3x3 determinant of the submatrix built in iteration `(i, j)` of `Adjoint`
is the minor of `matrix` at `(i, j)`. -/
theorem Determinant3x3_AdjointSubmatrix [CommRing α] (u M : Raytracer.Matrix α) (i j : Fin 4) :
    Raytracer.Matrix.Determinant3x3 (Raytracer.Matrix.AdjointSubmatrix u M i j)
      = Matrix.det ((Matrix.of M.m).submatrix i.succAbove j.succAbove) := by
  have h00 : (Raytracer.Matrix.AdjointSubmatrix u M i j).m 0 0 = _ := AdjointSubmatrix_m u M i j 0 0
  have h01 : (Raytracer.Matrix.AdjointSubmatrix u M i j).m 0 1 = _ := AdjointSubmatrix_m u M i j 0 1
  have h02 : (Raytracer.Matrix.AdjointSubmatrix u M i j).m 0 2 = _ := AdjointSubmatrix_m u M i j 0 2
  have h10 : (Raytracer.Matrix.AdjointSubmatrix u M i j).m 1 0 = _ := AdjointSubmatrix_m u M i j 1 0
  have h11 : (Raytracer.Matrix.AdjointSubmatrix u M i j).m 1 1 = _ := AdjointSubmatrix_m u M i j 1 1
  have h12 : (Raytracer.Matrix.AdjointSubmatrix u M i j).m 1 2 = _ := AdjointSubmatrix_m u M i j 1 2
  have h20 : (Raytracer.Matrix.AdjointSubmatrix u M i j).m 2 0 = _ := AdjointSubmatrix_m u M i j 2 0
  have h21 : (Raytracer.Matrix.AdjointSubmatrix u M i j).m 2 1 = _ := AdjointSubmatrix_m u M i j 2 1
  have h22 : (Raytracer.Matrix.AdjointSubmatrix u M i j).m 2 2 = _ := AdjointSubmatrix_m u M i j 2 2
  rw [Raytracer.Matrix.Determinant3x3, h00, h01, h02, h10, h11, h12, h20, h21, h22,
    Matrix.det_fin_three]
  simp only [Matrix.submatrix_apply, Matrix.of_apply]
  ring

/-- The code's adjoint is the adjugate: every entry is written, whatever `adjoint`
and the unwritten entries of the submatrices held. -/
theorem Adjoint_eq_adjugate [CommRing α] (u : Fin 4 → Fin 4 → Raytracer.Matrix α)
    (M a : Raytracer.Matrix α) :
    (Raytracer.Matrix.Adjoint u M a).m = Matrix.adjugate (Matrix.of M.m) := by
  unfold Raytracer.Matrix.Adjoint
  rw [fill_all_swap (fun i j =>
    if (i.val + j.val) % 2 ≠ 0
    then -Raytracer.Matrix.Determinant3x3 (Raytracer.Matrix.AdjointSubmatrix (u i j) M i j)
    else Raytracer.Matrix.Determinant3x3 (Raytracer.Matrix.AdjointSubmatrix (u i j) M i j))]
  funext i j
  rw [Matrix.adjugate_fin_succ_eq_det_submatrix, ← Determinant3x3_AdjointSubmatrix (u j i) M j i]
  exact cofactor_sign j.val i.val _

/-- The accumulation loop of `operator*` for one entry. -/
theorem mul_inner [AddCommMonoid α] (r : Raytracer.Matrix α) (i j : Fin 4) (c : Fin 4 → α) :
    ([0, 1, 2, 3] : List (Fin 4)).foldl (fun (result : Raytracer.Matrix α) (k : Fin 4) =>
        result.set i.val j.val (result.m i j + c k)) (r.set i.val j.val 0)
      = r.set i.val j.val (c 0 + c 1 + c 2 + c 3) := by
  simp only [List.foldl]
  ext a b
  simp only [set_m]
  by_cases h : a.val = i.val ∧ b.val = j.val
  · simp [h]
  · simp [h]

/-- The code's `operator*` is the matrix product, whatever `result` held. -/
theorem mul_eq_mul [NonUnitalNonAssocSemiring α] (u A B : Raytracer.Matrix α) :
    (Raytracer.Matrix.mul u A B).m = Matrix.of A.m * Matrix.of B.m := by
  unfold Raytracer.Matrix.mul
  simp only [mul_inner]
  rw [fill_all (fun i j => A.m i 0 * B.m 0 j + A.m i 1 * B.m 1 j + A.m i 2 * B.m 2 j
    + A.m i 3 * B.m 3 j)]
  funext i j
  simp [Matrix.mul_apply, Fin.sum_univ_four, add_assoc]

/-- The matrix `invMatrix`: every entry is written. -/
theorem invMatrixOf_m [Field α] (u adj : Raytracer.Matrix α) (det : α) :
    (Raytracer.Matrix.invMatrixOf u adj det).m = fun i j => adj.m i j / det := by
  unfold Raytracer.Matrix.invMatrixOf
  rw [fill_all (fun i j => adj.m i j / det)]

/-- The three write phases of `InverseAndTranspose` determine every entry of `result`. -/
theorem writeResult_m [One α] (inv r : Raytracer.Matrix α) (a b : Fin 4) :
    (Raytracer.Matrix.writeResult inv r).m a b
      = if a.val < 3 ∧ b.val < 3 then inv.m b a
        else if a.val = 3 ∧ b.val = 3 then 1 else inv.m a b := by
  simp only [Raytracer.Matrix.writeResult, List.foldl]
  fin_cases a <;> fin_cases b <;> simp [set_m, val_two, val_three]

/-- The status returned by `InverseAndTranspose`. -/
theorem InverseAndTranspose_fst [LinearOrderedField α] (u : Raytracer.Matrix.Uninit α)
    (M R0 : Raytracer.Matrix α) :
    (Raytracer.Matrix.InverseAndTranspose u M R0).1
      = if |Raytracer.Matrix.Determinant u.detSub M| < 1e-10 then Raytracer.RT_FAILURE
        else Raytracer.RT_SUCCESS := by
  unfold Raytracer.Matrix.InverseAndTranspose
  by_cases h : |Raytracer.Matrix.Determinant u.detSub M| < 1e-10 <;> simp [h]

/-- The output of `InverseAndTranspose`. -/
theorem InverseAndTranspose_snd [LinearOrderedField α] (u : Raytracer.Matrix.Uninit α)
    (M R0 : Raytracer.Matrix α) :
    (Raytracer.Matrix.InverseAndTranspose u M R0).2
      = if |Raytracer.Matrix.Determinant u.detSub M| < 1e-10 then R0
        else Raytracer.Matrix.writeResult
          (Raytracer.Matrix.invMatrixOf u.invMatrix
            (Raytracer.Matrix.Adjoint u.adjSub M u.adjoint)
            (Raytracer.Matrix.Determinant u.detSub M)) R0 := by
  unfold Raytracer.Matrix.InverseAndTranspose
  by_cases h : |Raytracer.Matrix.Determinant u.detSub M| < 1e-10 <;> simp [h]

theorem RT_SUCCESS_ne_RT_FAILURE : Raytracer.RT_SUCCESS ≠ Raytracer.RT_FAILURE := by decide

/-- Success means the determinant passed the threshold test. -/
theorem success_iff [LinearOrderedField α] (u : Raytracer.Matrix.Uninit α)
    (M R0 : Raytracer.Matrix α) :
    (Raytracer.Matrix.InverseAndTranspose u M R0).1 = Raytracer.RT_SUCCESS
      ↔ ¬ |Matrix.det (Matrix.of M.m)| < 1e-10 := by
  rw [InverseAndTranspose_fst, Determinant_eq_det]
  by_cases h : |Matrix.det (Matrix.of M.m)| < 1e-10
  · simp [h, RT_SUCCESS_ne_RT_FAILURE.symm]
  · simp [h]

/-- On success the determinant is not zero. -/
theorem det_ne_zero_of_success [LinearOrderedField α] (u : Raytracer.Matrix.Uninit α)
    (M R0 : Raytracer.Matrix α)
    (h : (Raytracer.Matrix.InverseAndTranspose u M R0).1 = Raytracer.RT_SUCCESS) :
    Matrix.det (Matrix.of M.m) ≠ 0 := by
  intro h0
  have h1 := (success_iff u M R0).mp h
  rw [h0] at h1
  exact h1 (by norm_num)

/-- On success every entry of the output is an entry of `adjugate / det`, or one. -/
theorem success_m [LinearOrderedField α] (u : Raytracer.Matrix.Uninit α)
    (M R0 : Raytracer.Matrix α)
    (h : (Raytracer.Matrix.InverseAndTranspose u M R0).1 = Raytracer.RT_SUCCESS) (a b : Fin 4) :
    (Raytracer.Matrix.InverseAndTranspose u M R0).2.m a b
      = if a.val < 3 ∧ b.val < 3
        then Matrix.adjugate (Matrix.of M.m) b a / Matrix.det (Matrix.of M.m)
        else if a.val = 3 ∧ b.val = 3 then 1
        else Matrix.adjugate (Matrix.of M.m) a b / Matrix.det (Matrix.of M.m) := by
  have h1 := (success_iff u M R0).mp h
  rw [InverseAndTranspose_snd, Determinant_eq_det, if_neg h1, writeResult_m, invMatrixOf_m,
    Adjoint_eq_adjugate]

/-- The determinant of the sample model matrix. -/
theorem det_sampleModel : Matrix.det (Matrix.of RaytracerSpec.sampleModel.m) = 24 := by
  rw [det_fin_four]
  simp [RaytracerSpec.sampleModel, Matrix.vecHead, Matrix.vecTail]
  norm_num

/-- The sample model matrix is inverted successfully. -/
theorem sampleModel_success (R0 : Raytracer.Matrix ℚ) :
    (Raytracer.Matrix.InverseAndTranspose RaytracerSpec.sampleUninit
      RaytracerSpec.sampleModel R0).1 = Raytracer.RT_SUCCESS := by
  rw [success_iff, det_sampleModel]
  norm_num

/-- Unfolding of `Raycast` when nothing is hit. -/
theorem Raycast_none [Ring α] (engine : Raytracer.Engine α) (ray : Raytracer.Ray α) (depth : Int)
    (h : engine.nearestHit ray = none) :
    Raytracer.Raycast engine ray depth = ⟨false, engine.background, [depth]⟩ := by
  rw [Raytracer.Raycast, h]

/-- Unfolding of `Raycast` on a hit when no reflected ray is cast. -/
theorem Raycast_stop [Ring α] (engine : Raytracer.Engine α) (ray : Raytracer.Ray α) (depth : Int)
    (hitInfo : Raytracer.RaycastHitInfo α) (h : engine.nearestHit ray = some hitInfo)
    (hc : ¬ (hitInfo.material.reflective = true ∧ depth < Raytracer.MAX_DEPTH)) :
    Raytracer.Raycast engine ray depth
      = ⟨true, engine.localIllumination ray hitInfo, [depth]⟩ := by
  rw [Raytracer.Raycast, h]
  simp only [dif_neg hc]

/-- Unfolding of `Raycast` on a hit when a reflected ray is cast. -/
theorem Raycast_reflect [Ring α] (engine : Raytracer.Engine α) (ray : Raytracer.Ray α)
    (depth : Int) (hitInfo : Raytracer.RaycastHitInfo α)
    (h : engine.nearestHit ray = some hitInfo)
    (hc : hitInfo.material.reflective = true ∧ depth < Raytracer.MAX_DEPTH) :
    (Raytracer.Raycast engine ray depth).depths
      = depth :: (Raytracer.Raycast engine
          ⟨hitInfo.hitPoint.add (hitInfo.normal.mulScalar engine.EPSILON),
            Raytracer.Vector3.reflect ray.direction hitInfo.normal⟩ (depth + 1)).depths := by
  rw [Raytracer.Raycast, h]
  simp only [dif_pos hc]

/-- The calls made below a call at `depth` are at most `MAX_DEPTH - depth` many,
and none has a depth above `MAX_DEPTH` (or above `depth`, if that is larger). -/
theorem Raycast_depths_bound [Ring α] (engine : Raytracer.Engine α) :
    ∀ (n : Nat) (ray : Raytracer.Ray α) (depth : Int),
      (Raytracer.MAX_DEPTH - depth).toNat ≤ n →
      (Raytracer.Raycast engine ray depth).depths.length ≤ n + 1
      ∧ ∀ d ∈ (Raytracer.Raycast engine ray depth).depths,
          depth ≤ d ∧ d ≤ max depth Raytracer.MAX_DEPTH := by
  intro n
  induction n with
  | zero =>
    intro ray depth hn
    have hd : ¬ depth < Raytracer.MAX_DEPTH := by omega
    cases hh : engine.nearestHit ray with
    | none => rw [Raycast_none engine ray depth hh]; simp
    | some hitInfo =>
      rw [Raycast_stop engine ray depth hitInfo hh (fun hc => hd hc.2)]
      simp
  | succ n ih =>
    intro ray depth hn
    cases hh : engine.nearestHit ray with
    | none => rw [Raycast_none engine ray depth hh]; simp
    | some hitInfo =>
      by_cases hc : hitInfo.material.reflective = true ∧ depth < Raytracer.MAX_DEPTH
      · rw [Raycast_reflect engine ray depth hitInfo hh hc]
        have hlt := hc.2
        have hrec := ih ⟨hitInfo.hitPoint.add (hitInfo.normal.mulScalar engine.EPSILON),
            Raytracer.Vector3.reflect ray.direction hitInfo.normal⟩ (depth + 1) (by omega)
        refine ⟨by simpa using hrec.1, ?_⟩
        intro d hmem
        rcases List.mem_cons.mp hmem with hd | hd
        · subst hd
          exact ⟨le_refl _, le_max_left _ _⟩
        · have := hrec.2 d hd
          have h1 : max (depth + 1) Raytracer.MAX_DEPTH = Raytracer.MAX_DEPTH := by
            apply max_eq_right; omega
          have h2 : max depth Raytracer.MAX_DEPTH = Raytracer.MAX_DEPTH := by
            apply max_eq_right; omega
          rw [h1] at this
          rw [h2]
          exact ⟨by omega, this.2⟩
      · rw [Raycast_stop engine ray depth hitInfo hh hc]
        simp

/-- The determinant of the uniform scale by `1e-4`. -/
theorem det_tinyScale : Matrix.det (Matrix.of RaytracerSpec.tinyScale.m) = 1 / 10 ^ 12 := by
  rw [det_fin_four]
  simp [RaytracerSpec.tinyScale, RaytracerSpec.scale4, Matrix.vecHead, Matrix.vecTail]
  norm_num

/-- The uniform scale by `1e-4` is rejected by the threshold test. -/
theorem tinyScale_failure (u : Raytracer.Matrix.Uninit ℚ) (R0 : Raytracer.Matrix ℚ) :
    (Raytracer.Matrix.InverseAndTranspose u RaytracerSpec.tinyScale R0).1
      = Raytracer.RT_FAILURE := by
  rw [InverseAndTranspose_fst, Determinant_eq_det, det_tinyScale, if_pos]
  rw [abs_of_pos (by norm_num)]
  norm_num

/-- For a matrix with fourth row `(0,0,0,1)` the fourth row of the adjugate is
`(0,0,0,det)`. -/
theorem adjugate_last_row [CommRing α] (M : Raytracer.Matrix α)
    (hrow : M.m 3 0 = 0 ∧ M.m 3 1 = 0 ∧ M.m 3 2 = 0 ∧ M.m 3 3 = 1) (j : Fin 4) :
    Matrix.adjugate (Matrix.of M.m) 3 j
      = if j = 3 then Matrix.det (Matrix.of M.m) else 0 := by
  obtain ⟨h0, h1, h2, h3⟩ := hrow
  have h := congrFun (congrFun (Matrix.mul_adjugate (Matrix.of M.m)) 3) j
  rw [Matrix.mul_apply, Fin.sum_univ_four] at h
  simp only [Matrix.of_apply, h0, h1, h2, h3, zero_mul, zero_add, one_mul, Matrix.smul_apply,
    Matrix.one_apply, smul_eq_mul] at h
  rw [h]
  by_cases hj : j = 3
  · simp [hj]
  · have hj2 : ¬ (3 : Fin 4) = j := fun e => hj e.symm
    simp [hj, hj2]

/-- For a matrix with fourth row `(0,0,0,1)` the determinant is that of the
linear part. -/
theorem det_eq_det_upper3 [CommRing α] (M : Raytracer.Matrix α)
    (hrow : M.m 3 0 = 0 ∧ M.m 3 1 = 0 ∧ M.m 3 2 = 0 ∧ M.m 3 3 = 1) :
    Matrix.det (Matrix.of M.m) = Matrix.det (RaytracerSpec.upper3 M) := by
  obtain ⟨h0, h1, h2, h3⟩ := hrow
  have e0 : (Fin.castSucc (0 : Fin 3) : Fin 4) = 0 := rfl
  have e1 : (Fin.castSucc (1 : Fin 3) : Fin 4) = 1 := rfl
  have e2 : (Fin.castSucc (2 : Fin 3) : Fin 4) = 2 := rfl
  rw [det_fin_four, Matrix.det_fin_three]
  simp only [RaytracerSpec.upper3, Matrix.of_apply, h0, h1, h2, h3, e0, e1, e2]
  ring

/-- On success, for a matrix whose fourth row starts with three zeros, the
transposed 3x3 block of the output is a left inverse of the linear part. -/
theorem upper3_left_inverse [LinearOrderedField α] (u : Raytracer.Matrix.Uninit α)
    (M R0 : Raytracer.Matrix α) (hrow3 : ∀ j : Fin 3, M.m 3 j.castSucc = 0)
    (hok : (Raytracer.Matrix.InverseAndTranspose u M R0).1 = Raytracer.RT_SUCCESS) :
    (RaytracerSpec.upper3 (Raytracer.Matrix.InverseAndTranspose u M R0).2).transpose
      * RaytracerSpec.upper3 M = 1 := by
  have hdet := det_ne_zero_of_success u M R0 hok
  ext i j
  have hfull := congrFun (congrFun (Matrix.adjugate_mul (Matrix.of M.m)) i.castSucc) j.castSucc
  rw [Matrix.mul_apply, Fin.sum_univ_castSucc] at hfull
  simp only [Matrix.of_apply, Matrix.smul_apply, Matrix.one_apply, smul_eq_mul] at hfull
  have hlast : M.m (Fin.last 3) j.castSucc = 0 := hrow3 j
  rw [hlast, mul_zero, add_zero] at hfull
  rw [Matrix.mul_apply]
  have hR : ∀ k : Fin 3,
      (Raytracer.Matrix.InverseAndTranspose u M R0).2.m k.castSucc i.castSucc
        = Matrix.adjugate (Matrix.of M.m) i.castSucc k.castSucc
          / Matrix.det (Matrix.of M.m) := by
    intro k
    rw [success_m u M R0 hok, if_pos]
    exact ⟨k.isLt, i.isLt⟩
  simp only [Matrix.transpose_apply, RaytracerSpec.upper3, Matrix.of_apply, hR]
  have hsum : ∑ k : Fin 3, Matrix.adjugate (Matrix.of M.m) i.castSucc k.castSucc
        / Matrix.det (Matrix.of M.m) * M.m k.castSucc j.castSucc
      = (∑ k : Fin 3, Matrix.adjugate (Matrix.of M.m) i.castSucc k.castSucc
        * M.m k.castSucc j.castSucc) / Matrix.det (Matrix.of M.m) := by
    rw [Finset.sum_div]
    exact Finset.sum_congr rfl (fun k _ => by ring)
  rw [hsum, hfull, Matrix.one_apply]
  by_cases hij : i = j
  · subst hij
    simp [hdet]
  · have hij2 : i.castSucc ≠ j.castSucc := fun h => hij (Fin.castSucc_injective 3 h)
    simp [hij, hij2]

/-- On success, for a matrix with fourth row `(0,0,0,1)`, the output has fourth
row `(0,0,0,1)` again. -/
theorem success_last_row [LinearOrderedField α] (u : Raytracer.Matrix.Uninit α)
    (M R0 : Raytracer.Matrix α)
    (hrow : M.m 3 0 = 0 ∧ M.m 3 1 = 0 ∧ M.m 3 2 = 0 ∧ M.m 3 3 = 1)
    (hok : (Raytracer.Matrix.InverseAndTranspose u M R0).1 = Raytracer.RT_SUCCESS) :
    (Raytracer.Matrix.InverseAndTranspose u M R0).2.m 3 0 = 0
    ∧ (Raytracer.Matrix.InverseAndTranspose u M R0).2.m 3 1 = 0
    ∧ (Raytracer.Matrix.InverseAndTranspose u M R0).2.m 3 2 = 0
    ∧ (Raytracer.Matrix.InverseAndTranspose u M R0).2.m 3 3 = 1 := by
  refine ⟨?_, ?_, ?_, ?_⟩
  · rw [success_m u M R0 hok, adjugate_last_row M hrow]
    simp [val_three]
  · rw [success_m u M R0 hok, adjugate_last_row M hrow]
    simp [val_three]
  · rw [success_m u M R0 hok, adjugate_last_row M hrow]
    simp [val_three]
  · rw [success_m u M R0 hok]
    simp [val_three]

/-- On success, for a matrix with fourth row `(0,0,0,1)`, the linear part applied
to the fourth column of the output gives minus the translation column. -/
theorem success_translation [LinearOrderedField α] (u : Raytracer.Matrix.Uninit α)
    (M R0 : Raytracer.Matrix α)
    (hrow : M.m 3 0 = 0 ∧ M.m 3 1 = 0 ∧ M.m 3 2 = 0 ∧ M.m 3 3 = 1)
    (hok : (Raytracer.Matrix.InverseAndTranspose u M R0).1 = Raytracer.RT_SUCCESS) :
    (RaytracerSpec.upper3 M).mulVec
        (RaytracerSpec.translationOf (Raytracer.Matrix.InverseAndTranspose u M R0).2)
      = -RaytracerSpec.translationOf M := by
  have hdet := det_ne_zero_of_success u M R0 hok
  funext i
  have hfull := congrFun (congrFun (Matrix.mul_adjugate (Matrix.of M.m)) i.castSucc) 3
  rw [Matrix.mul_apply, Fin.sum_univ_castSucc] at hfull
  have hne : i.castSucc ≠ (3 : Fin 4) := by
    intro h
    have := congrArg Fin.val h
    simp [val_three] at this
    omega
  have hl : Matrix.adjugate (Matrix.of M.m) (Fin.last 3) 3 = Matrix.det (Matrix.of M.m) := by
    have := adjugate_last_row M hrow 3
    simpa using this
  simp only [Matrix.of_apply, Matrix.smul_apply, Matrix.one_apply, smul_eq_mul, hl, if_neg hne,
    mul_zero] at hfull
  have hR : ∀ k : Fin 3,
      (Raytracer.Matrix.InverseAndTranspose u M R0).2.m k.castSucc 3
        = Matrix.adjugate (Matrix.of M.m) k.castSucc 3 / Matrix.det (Matrix.of M.m) := by
    intro k
    rw [success_m u M R0 hok, if_neg, if_neg]
    · intro h
      have := h.1
      simp at this
      omega
    · intro h
      have := h.2
      simp [val_three] at this
  simp only [Matrix.mulVec, Matrix.dotProduct, RaytracerSpec.translationOf, RaytracerSpec.upper3,
    Matrix.of_apply, hR, Pi.neg_apply]
  have hsum : ∑ k : Fin 3, M.m i.castSucc k.castSucc
        * (Matrix.adjugate (Matrix.of M.m) k.castSucc 3 / Matrix.det (Matrix.of M.m))
      = (∑ k : Fin 3, M.m i.castSucc k.castSucc
        * Matrix.adjugate (Matrix.of M.m) k.castSucc 3) / Matrix.det (Matrix.of M.m) := by
    rw [Finset.sum_div]
    exact Finset.sum_congr rfl (fun k _ => by ring)
  rw [hsum]
  have hs : ∑ k : Fin 3, M.m i.castSucc k.castSucc
      * Matrix.adjugate (Matrix.of M.m) k.castSucc 3
      = -(M.m i.castSucc 3 * Matrix.det (Matrix.of M.m)) := by
    have e : (Fin.last 3 : Fin 4) = 3 := rfl
    rw [e] at hfull
    linear_combination hfull
  rw [hs]
  field_simp

/-- The checked `operator/` fails exactly on a zero scalar and otherwise returns
what the unchecked one returns. -/
theorem divChecked_eq [DecidableEq α] [Zero α] [Div α] (v : Raytracer.Vector3 α) (s : α) :
    Raytracer.Vector3.divChecked v s = if s = 0 then none else some (v.div s) := by
  by_cases h : s = 0 <;>
    simp [Raytracer.Vector3.divChecked, Raytracer.checkedDiv, Raytracer.Vector3.div, h]

/-- The checked `normalize` fails exactly when the computed length is zero and
otherwise returns what the unchecked one returns. -/
theorem normalizeChecked_eq [DecidableEq α] [Zero α] [Add α] [Mul α] [Div α] (sqrt : α → α)
    (v : Raytracer.Vector3 α) :
    Raytracer.Vector3.normalizeChecked sqrt v
      = if sqrt (v.x * v.x + v.y * v.y + v.z * v.z) = 0 then none
        else some (v.normalize sqrt) := by
  by_cases h : sqrt (v.x * v.x + v.y * v.y + v.z * v.z) = 0 <;>
    simp [Raytracer.Vector3.normalizeChecked, Raytracer.checkedDiv, Raytracer.Vector3.normalize, h]

/-- With a nonzero divisor the checked division loop of `InverseAndTranspose`
returns what the unchecked one returns. -/
theorem invMatrixOfChecked_eq [Field α] [DecidableEq α] (u adj : Raytracer.Matrix α) (det : α)
    (h : det ≠ 0) :
    Raytracer.Matrix.invMatrixOfChecked u adj det
      = some (Raytracer.Matrix.invMatrixOf u adj det) := by
  simp [Raytracer.Matrix.invMatrixOfChecked, Raytracer.Matrix.invMatrixOf, Raytracer.checkedDiv, h]

/-- A determinant that passes the threshold test is not zero. -/
theorem ne_zero_of_not_small [LinearOrderedField α] (d : α) (h : ¬ |d| < 1e-10) : d ≠ 0 := by
  intro h0
  rw [h0] at h
  exact h (by norm_num)

/-- The checked `InverseAndTranspose` never fails. -/
theorem InverseAndTransposeChecked_eq [LinearOrderedField α] (u : Raytracer.Matrix.Uninit α)
    (M R0 : Raytracer.Matrix α) :
    Raytracer.Matrix.InverseAndTransposeChecked u M R0
      = some (Raytracer.Matrix.InverseAndTranspose u M R0) := by
  unfold Raytracer.Matrix.InverseAndTransposeChecked Raytracer.Matrix.InverseAndTranspose
  by_cases h : |Raytracer.Matrix.Determinant u.detSub M| < 1e-10
  · simp [h]
  · simp [h, invMatrixOfChecked_eq _ _ _ (ne_zero_of_not_small _ h)]

/-- The rational value of a non-negative finite binary32 given in whole units. -/
theorem toRat_finite_pos (n : Nat) :
    (Raytracer.Binary32.finite false (n * 2 ^ 149)).toRat? = some (n : ℚ) := by
  simp only [Raytracer.Binary32.toRat?]
  congr 1
  push_cast
  field_simp
  left
  norm_num

/-- The rational value of a non-positive finite binary32 given in whole units. -/
theorem toRat_finite_neg (n : Nat) :
    (Raytracer.Binary32.finite true (n * 2 ^ 149)).toRat? = some (-(n : ℚ)) := by
  simp only [Raytracer.Binary32.toRat?]
  congr 1
  push_cast
  field_simp
  left
  norm_num

/-- In any arithmetic, `Determinant` does not depend on what the submatrices held
before their nine entries were written. -/
theorem Determinant_uninit_irrelevant {β : Type} [Zero β] [One β] [Neg β] [Add β] [Mul β]
    [Sub β] (u u' : Fin 4 → Raytracer.Matrix β) (M : Raytracer.Matrix β) :
    Raytracer.Matrix.Determinant u M = Raytracer.Matrix.Determinant u' M := by
  simp only [Raytracer.Matrix.Determinant, List.foldl, Raytracer.Matrix.Determinant3x3]
  simp [set_m, val_three, val_two]

/-- In any arithmetic, the minor computed in iteration `(i, j)` of `Adjoint` does
not depend on what the submatrix held before. -/
theorem Determinant3x3_uninit_irrelevant {β : Type} [Add β] [Mul β] [Sub β]
    (u u' M : Raytracer.Matrix β) (i j : Fin 4) :
    Raytracer.Matrix.Determinant3x3 (Raytracer.Matrix.AdjointSubmatrix u M i j)
      = Raytracer.Matrix.Determinant3x3 (Raytracer.Matrix.AdjointSubmatrix u' M i j) := by
  have h : ∀ (w : Raytracer.Matrix β) (a b : Fin 3),
      (Raytracer.Matrix.AdjointSubmatrix w M i j).m a.castSucc b.castSucc
        = M.m (i.succAbove a) (j.succAbove b) := fun w a b => AdjointSubmatrix_m w M i j a b
  have key : ∀ w : Raytracer.Matrix β,
      Raytracer.Matrix.Determinant3x3 (Raytracer.Matrix.AdjointSubmatrix w M i j)
        = M.m (i.succAbove 0) (j.succAbove 0)
            * (M.m (i.succAbove 1) (j.succAbove 1) * M.m (i.succAbove 2) (j.succAbove 2)
              - M.m (i.succAbove 1) (j.succAbove 2) * M.m (i.succAbove 2) (j.succAbove 1))
          - M.m (i.succAbove 0) (j.succAbove 1)
            * (M.m (i.succAbove 1) (j.succAbove 0) * M.m (i.succAbove 2) (j.succAbove 2)
              - M.m (i.succAbove 1) (j.succAbove 2) * M.m (i.succAbove 2) (j.succAbove 0))
          + M.m (i.succAbove 0) (j.succAbove 2)
            * (M.m (i.succAbove 1) (j.succAbove 0) * M.m (i.succAbove 2) (j.succAbove 1)
              - M.m (i.succAbove 1) (j.succAbove 1) * M.m (i.succAbove 2) (j.succAbove 0)) := by
    intro w
    have h00 : (Raytracer.Matrix.AdjointSubmatrix w M i j).m 0 0 = _ := h w 0 0
    have h01 : (Raytracer.Matrix.AdjointSubmatrix w M i j).m 0 1 = _ := h w 0 1
    have h02 : (Raytracer.Matrix.AdjointSubmatrix w M i j).m 0 2 = _ := h w 0 2
    have h10 : (Raytracer.Matrix.AdjointSubmatrix w M i j).m 1 0 = _ := h w 1 0
    have h11 : (Raytracer.Matrix.AdjointSubmatrix w M i j).m 1 1 = _ := h w 1 1
    have h12 : (Raytracer.Matrix.AdjointSubmatrix w M i j).m 1 2 = _ := h w 1 2
    have h20 : (Raytracer.Matrix.AdjointSubmatrix w M i j).m 2 0 = _ := h w 2 0
    have h21 : (Raytracer.Matrix.AdjointSubmatrix w M i j).m 2 1 = _ := h w 2 1
    have h22 : (Raytracer.Matrix.AdjointSubmatrix w M i j).m 2 2 = _ := h w 2 2
    rw [Raytracer.Matrix.Determinant3x3, h00, h01, h02, h10, h11, h12, h20, h21, h22]
  rw [key u, key u']

/-- In any arithmetic, `Adjoint` writes every entry: its output depends neither
on the prior content of `adjoint` nor on what the submatrices held. -/
theorem Adjoint_uninit_irrelevant {β : Type} [Neg β] [Add β] [Mul β] [Sub β]
    (u u' : Fin 4 → Fin 4 → Raytracer.Matrix β) (M a a' : Raytracer.Matrix β) :
    Raytracer.Matrix.Adjoint u M a = Raytracer.Matrix.Adjoint u' M a' := by
  unfold Raytracer.Matrix.Adjoint
  rw [fill_all_swap (fun i j =>
      if (i.val + j.val) % 2 ≠ 0
      then -Raytracer.Matrix.Determinant3x3 (Raytracer.Matrix.AdjointSubmatrix (u i j) M i j)
      else Raytracer.Matrix.Determinant3x3 (Raytracer.Matrix.AdjointSubmatrix (u i j) M i j)),
    fill_all_swap (fun i j =>
      if (i.val + j.val) % 2 ≠ 0
      then -Raytracer.Matrix.Determinant3x3 (Raytracer.Matrix.AdjointSubmatrix (u' i j) M i j)
      else Raytracer.Matrix.Determinant3x3 (Raytracer.Matrix.AdjointSubmatrix (u' i j) M i j))]
  apply Raytracer.Matrix.ext
  funext x y
  show (if (y.val + x.val) % 2 ≠ 0 then _ else _) = (if (y.val + x.val) % 2 ≠ 0 then _ else _)
  rw [Determinant3x3_uninit_irrelevant (u y x) (u' y x) M y x]

end RaytracerAux

/-! ## The claims -/

namespace RaytracerClaims

variable {α : Type}

open RaytracerAux RaytracerSpec

/-- C1: for a model matrix `M` with fourth row `(0,0,0,1)` on which
`InverseAndTranspose` returns `RT_SUCCESS`, the upper-left 3x3 block `R3` of the
output is the transpose of the inverse of the linear part `A` of `M`:
`R3ᵀ * A = 1` and `A * R3ᵀ = 1`; so `Aᵀ` is the inverse of `R3`, and transforming
a normal `n` by `R3` and then by `Aᵀ` returns `n`. -/
theorem C1_linear_part_is_inverse_transpose [LinearOrderedField α]
    (u : Raytracer.Matrix.Uninit α) (M R0 : Raytracer.Matrix α)
    (hrow : M.m 3 0 = 0 ∧ M.m 3 1 = 0 ∧ M.m 3 2 = 0 ∧ M.m 3 3 = 1)
    (hok : (Raytracer.Matrix.InverseAndTranspose u M R0).1 = Raytracer.RT_SUCCESS) :
    (upper3 (Raytracer.Matrix.InverseAndTranspose u M R0).2).transpose * upper3 M = 1
    ∧ upper3 M * (upper3 (Raytracer.Matrix.InverseAndTranspose u M R0).2).transpose = 1
    ∧ (upper3 M).transpose * upper3 (Raytracer.Matrix.InverseAndTranspose u M R0).2 = 1
    ∧ upper3 (Raytracer.Matrix.InverseAndTranspose u M R0).2 * (upper3 M).transpose = 1
    ∧ ∀ n : Fin 3 → α,
        (upper3 M).transpose.mulVec
          ((upper3 (Raytracer.Matrix.InverseAndTranspose u M R0).2).mulVec n) = n := by
  have hdet := det_ne_zero_of_success u M R0 hok
  have hrow3 : ∀ j : Fin 3, M.m 3 j.castSucc = 0 := by
    intro j
    fin_cases j
    · exact hrow.1
    · exact hrow.2.1
    · exact hrow.2.2.1
  have hR : ∀ i j : Fin 3,
      (Raytracer.Matrix.InverseAndTranspose u M R0).2.m i.castSucc j.castSucc
        = Matrix.adjugate (Matrix.of M.m) j.castSucc i.castSucc / Matrix.det (Matrix.of M.m) := by
    intro i j
    rw [success_m u M R0 hok, if_pos]
    exact ⟨i.isLt, j.isLt⟩
  have h1 : (upper3 (Raytracer.Matrix.InverseAndTranspose u M R0).2).transpose * upper3 M = 1 := by
    ext i j
    have hfull := congrFun (congrFun (Matrix.adjugate_mul (Matrix.of M.m)) i.castSucc) j.castSucc
    rw [Matrix.mul_apply, Fin.sum_univ_castSucc] at hfull
    simp only [Matrix.of_apply, Matrix.smul_apply, Matrix.one_apply, smul_eq_mul] at hfull
    have hlast : M.m (Fin.last 3) j.castSucc = 0 := hrow3 j
    rw [hlast, mul_zero, add_zero] at hfull
    rw [Matrix.mul_apply]
    simp only [Matrix.transpose_apply, upper3, Matrix.of_apply, hR]
    have hsum : ∑ k : Fin 3, Matrix.adjugate (Matrix.of M.m) i.castSucc k.castSucc
          / Matrix.det (Matrix.of M.m) * M.m k.castSucc j.castSucc
        = (∑ k : Fin 3, Matrix.adjugate (Matrix.of M.m) i.castSucc k.castSucc
          * M.m k.castSucc j.castSucc) / Matrix.det (Matrix.of M.m) := by
      rw [Finset.sum_div]
      exact Finset.sum_congr rfl (fun k _ => by ring)
    rw [hsum, hfull, Matrix.one_apply]
    by_cases hij : i = j
    · subst hij
      simp [hdet]
    · have hij2 : i.castSucc ≠ j.castSucc := fun h => hij (Fin.castSucc_injective 3 h)
      simp [hij, hij2]
  have h2 := (Matrix.mul_eq_one_comm).mp h1
  have h3 : (upper3 M).transpose * upper3 (Raytracer.Matrix.InverseAndTranspose u M R0).2 = 1 := by
    have := congrArg Matrix.transpose h1
    simpa [Matrix.transpose_mul] using this
  have h4 := (Matrix.mul_eq_one_comm).mp h3
  refine ⟨h1, h2, h3, h4, fun n => ?_⟩
  rw [Matrix.mulVec_mulVec, h3, Matrix.one_mulVec]

/-- Witness of C1 at the sample model matrix (scale `(2,3,4)`, translation `(5,6,7)`). -/
theorem C1_linear_part_is_inverse_transpose_witness :
    (sampleModel.m 3 0 = 0 ∧ sampleModel.m 3 1 = 0 ∧ sampleModel.m 3 2 = 0
      ∧ sampleModel.m 3 3 = 1)
    ∧ (Raytracer.Matrix.InverseAndTranspose sampleUninit sampleModel sampleJunk).1
      = Raytracer.RT_SUCCESS
    ∧ (upper3 (Raytracer.Matrix.InverseAndTranspose sampleUninit sampleModel
        sampleJunk).2).transpose * upper3 sampleModel = 1 :=
  ⟨⟨rfl, rfl, rfl, rfl⟩, sampleModel_success sampleJunk,
    (C1_linear_part_is_inverse_transpose sampleUninit sampleModel sampleJunk
      ⟨rfl, rfl, rfl, rfl⟩ (sampleModel_success sampleJunk)).1⟩

/-- C2, as stated, fails in binary32 arithmetic: the integer matrix
`singularEntries` has determinant zero (every entry is a `float`), yet the
code's `Determinant` rounds to 1 on it and `InverseAndTranspose` returns
`RT_SUCCESS` and writes a matrix. -/
theorem C2_singular_accepted_in_float :
    Matrix.det (Matrix.of (intMatrix singularEntries : Raytracer.Matrix ℤ).m) = 0
    ∧ Raytracer.Matrix.Determinant sampleUninit32.detSub (intMatrix singularEntries)
      = (1 : Raytracer.Binary32)
    ∧ (Raytracer.Matrix.InverseAndTranspose32 sampleUninit32 (intMatrix singularEntries)
        sampleJunk32).1 = Raytracer.RT_SUCCESS
    ∧ (Raytracer.Matrix.InverseAndTranspose32 sampleUninit32 (intMatrix singularEntries)
        sampleJunk32).2 ≠ sampleJunk32 := by
  refine ⟨?_, by decide, by decide, ?_⟩
  · rw [← Determinant_eq_det (fun _ => ⟨fun _ _ => 0⟩)]
    decide
  · intro h
    have h33 := congrArg (fun M => M.m 3 3) h
    revert h33
    decide

/-- C2, amended: with arithmetic read as exact, for every singular 4x4 matrix
(determinant zero, the all-zero matrix included) `InverseAndTranspose` returns
`RT_FAILURE`, and it writes nothing to `result`: no normal-transform matrix is
produced. -/
theorem C2_singular_reports_failure [LinearOrderedField α]
    (u : Raytracer.Matrix.Uninit α) (M R0 : Raytracer.Matrix α)
    (hsing : Matrix.det (Matrix.of M.m) = 0) :
    (Raytracer.Matrix.InverseAndTranspose u M R0).1 = Raytracer.RT_FAILURE
    ∧ (Raytracer.Matrix.InverseAndTranspose u M R0).2 = R0 := by
  have h : |Raytracer.Matrix.Determinant u.detSub M| < 1e-10 := by
    rw [Determinant_eq_det, hsing]
    norm_num
  rw [InverseAndTranspose_fst, InverseAndTranspose_snd, if_pos h, if_pos h]
  exact ⟨rfl, rfl⟩

/-- Witness of C2 at the all-zero matrix. -/
theorem C2_singular_reports_failure_witness :
    Matrix.det (Matrix.of (scalar4 (0 : ℚ)).m) = 0
    ∧ (Raytracer.Matrix.InverseAndTranspose sampleUninit (scalar4 0) sampleJunk).1
      = Raytracer.RT_FAILURE
    ∧ (Raytracer.Matrix.InverseAndTranspose sampleUninit (scalar4 0) sampleJunk).2
      = sampleJunk :=
  ⟨by rw [det_fin_four]; simp [scalar4],
    C2_singular_reports_failure sampleUninit (scalar4 0) sampleJunk
      (by rw [det_fin_four]; simp [scalar4])⟩

/-- C3: `InverseAndTranspose` returns `RT_FAILURE` exactly when
`|Determinant(matrix)| < 1e-10` and `RT_SUCCESS` exactly when not; when it returns
`RT_FAILURE` the output `result` is what it was before the call, entry for entry. -/
theorem C3_failure_iff_below_threshold [LinearOrderedField α]
    (u : Raytracer.Matrix.Uninit α) (M R0 : Raytracer.Matrix α) :
    ((Raytracer.Matrix.InverseAndTranspose u M R0).1 = Raytracer.RT_FAILURE
      ↔ |Raytracer.Matrix.Determinant u.detSub M| < 1e-10)
    ∧ ((Raytracer.Matrix.InverseAndTranspose u M R0).1 = Raytracer.RT_SUCCESS
      ↔ ¬ |Raytracer.Matrix.Determinant u.detSub M| < 1e-10)
    ∧ ((Raytracer.Matrix.InverseAndTranspose u M R0).1 = Raytracer.RT_FAILURE
      → ∀ i j : Fin 4, (Raytracer.Matrix.InverseAndTranspose u M R0).2.m i j = R0.m i j) := by
  rw [InverseAndTranspose_fst, InverseAndTranspose_snd]
  by_cases h : |Raytracer.Matrix.Determinant u.detSub M| < 1e-10
  · simp [h, RT_SUCCESS_ne_RT_FAILURE.symm]
  · simp [h, RT_SUCCESS_ne_RT_FAILURE]

/-- C4, as stated, fails in binary32 arithmetic: on the scale by `(4097, 4097, 1)`
the code's `Determinant` is 16785408, the determinant is 16785409. -/
theorem C4_float_determinant_rounds :
    (Raytracer.Matrix.Determinant sampleUninit32.detSub
        (intMatrix bigScaleEntries)).toRat? = some 16785408
    ∧ Matrix.det (Matrix.of (intMatrix bigScaleEntries : Raytracer.Matrix ℤ).m) = 16785409 := by
  refine ⟨?_, ?_⟩
  · have h : Raytracer.Matrix.Determinant sampleUninit32.detSub (intMatrix bigScaleEntries)
        = Raytracer.Binary32.finite false (16785408 * 2 ^ 149) := by decide
    rw [h, toRat_finite_pos]
    norm_num
  · rw [← Determinant_eq_det (fun _ => ⟨fun _ _ => 0⟩)]
    decide

/-- C4, amended: with arithmetic read as exact, `Determinant` is the mathematical
determinant, that is the cofactor expansion along the first row with sign
`(-1)^i` and the minor without row 0 and column `i`; in any arithmetic (that of
`float` included) the value does not depend on what the submatrices held before
their nine entries were written. -/
theorem C4_determinant_is_det [CommRing α] (u u' : Fin 4 → Raytracer.Matrix α)
    (M : Raytracer.Matrix α) {β : Type} [Zero β] [One β] [Neg β] [Add β] [Mul β] [Sub β]
    (v v' : Fin 4 → Raytracer.Matrix β) (N : Raytracer.Matrix β) :
    Raytracer.Matrix.Determinant u M = Matrix.det (Matrix.of M.m)
    ∧ Raytracer.Matrix.Determinant u M
      = ∑ i : Fin 4, (-1) ^ (i : ℕ) * M.m 0 i
          * Matrix.det ((Matrix.of M.m).submatrix Fin.succ i.succAbove)
    ∧ Raytracer.Matrix.Determinant u M = Raytracer.Matrix.Determinant u' M
    ∧ Raytracer.Matrix.Determinant v N = Raytracer.Matrix.Determinant v' N := by
  refine ⟨Determinant_eq_det u M, ?_, ?_, Determinant_uninit_irrelevant v v' N⟩
  · rw [Determinant_eq_det, Matrix.det_succ_row_zero]
    rfl
  · rw [Determinant_eq_det, Determinant_eq_det]

/-- C5, as stated, fails in binary32 arithmetic.  On the matrix `shearEntries`
the code's `adjoint.m[2][2]` is `16785408 - 16785408 = 0`, where the adjugate
has 1.  On the matrix `skewEntries` the product of the matrix and the code's
adjoint has -3 at `[2][2]`, where the code's `Determinant` is -4. -/
theorem C5_float_adjoint_cancels :
    ((Raytracer.Matrix.Adjoint sampleUninit32.adjSub (intMatrix shearEntries)
        sampleJunk32).m 2 2).toRat? = some 0
    ∧ Matrix.adjugate (Matrix.of (intMatrix shearEntries : Raytracer.Matrix ℤ).m) 2 2 = 1
    ∧ ((Raytracer.Matrix.mul sampleJunk32 (intMatrix skewEntries)
        (Raytracer.Matrix.Adjoint sampleUninit32.adjSub (intMatrix skewEntries)
          sampleJunk32)).m 2 2).toRat? = some (-3)
    ∧ (Raytracer.Matrix.Determinant sampleUninit32.detSub
        (intMatrix skewEntries)).toRat? = some (-4) := by
  refine ⟨?_, ?_, ?_, ?_⟩
  · have h : (Raytracer.Matrix.Adjoint sampleUninit32.adjSub (intMatrix shearEntries)
        sampleJunk32).m 2 2 = Raytracer.Binary32.finite false (0 * 2 ^ 149) := by decide
    rw [h, toRat_finite_pos]
    norm_num
  · rw [← Adjoint_eq_adjugate (fun _ _ => ⟨fun _ _ => 0⟩) _ ⟨fun _ _ => 0⟩]
    decide
  · have h : (Raytracer.Matrix.mul sampleJunk32 (intMatrix skewEntries)
        (Raytracer.Matrix.Adjoint sampleUninit32.adjSub (intMatrix skewEntries)
          sampleJunk32)).m 2 2 = Raytracer.Binary32.finite true (3 * 2 ^ 149) := by decide
    rw [h, toRat_finite_neg]
    norm_num
  · have h : Raytracer.Matrix.Determinant sampleUninit32.detSub (intMatrix skewEntries)
        = Raytracer.Binary32.finite true (4 * 2 ^ 149) := by decide
    rw [h, toRat_finite_neg]
    norm_num

/-- C5, amended: in any arithmetic (that of `float` included) `Adjoint` writes
every entry of `adjoint`: the output does not depend on its prior content; with
arithmetic read as exact, the entries are those of the classical adjugate of
`matrix`, and under `operator*` both products of `matrix` and its adjoint are
`Determinant(matrix)` times the identity. -/
theorem C5_adjoint_is_adjugate [CommRing α] (u : Fin 4 → Fin 4 → Raytracer.Matrix α)
    (ud : Fin 4 → Raytracer.Matrix α) (M adj0 adj0' r1 r2 : Raytracer.Matrix α)
    {β : Type} [Neg β] [Add β] [Mul β] [Sub β] (v v' : Fin 4 → Fin 4 → Raytracer.Matrix β)
    (N b b' : Raytracer.Matrix β) :
    (Raytracer.Matrix.Adjoint u M adj0).m = Matrix.adjugate (Matrix.of M.m)
    ∧ Raytracer.Matrix.Adjoint u M adj0 = Raytracer.Matrix.Adjoint u M adj0'
    ∧ Raytracer.Matrix.mul r1 M (Raytracer.Matrix.Adjoint u M adj0)
      = scalar4 (Raytracer.Matrix.Determinant ud M)
    ∧ Raytracer.Matrix.mul r2 (Raytracer.Matrix.Adjoint u M adj0) M
      = scalar4 (Raytracer.Matrix.Determinant ud M)
    ∧ Raytracer.Matrix.Adjoint v N b = Raytracer.Matrix.Adjoint v' N b' := by
  have hs : (scalar4 (Raytracer.Matrix.Determinant ud M)).m
      = Matrix.det (Matrix.of M.m) • (1 : Matrix (Fin 4) (Fin 4) α) := by
    funext i j
    simp [scalar4, Determinant_eq_det, Matrix.one_apply]
  refine ⟨Adjoint_eq_adjugate u M adj0, ?_, ?_, ?_, Adjoint_uninit_irrelevant v v' N b b'⟩
  · apply Raytracer.Matrix.ext
    rw [Adjoint_eq_adjugate, Adjoint_eq_adjugate]
  · apply Raytracer.Matrix.ext
    rw [mul_eq_mul, hs, Adjoint_eq_adjugate]
    exact Matrix.mul_adjugate (Matrix.of M.m)
  · apply Raytracer.Matrix.ext
    rw [mul_eq_mul, hs, Adjoint_eq_adjugate]
    exact Matrix.adjugate_mul (Matrix.of M.m)

/-- C6: for all vectors `I` and `N` (no unit-length assumption),
`reflect(I, N)` is `I - 2*(I.N)*N`: component `c` of the result is
`I.c - 2*(I.x*N.x + I.y*N.y + I.z*N.z)*N.c`. -/
theorem C6_reflect_formula [CommRing α] (I N : Raytracer.Vector3 α) :
    (Raytracer.Vector3.reflect I N).x = I.x - 2 * (I.x * N.x + I.y * N.y + I.z * N.z) * N.x
    ∧ (Raytracer.Vector3.reflect I N).y = I.y - 2 * (I.x * N.x + I.y * N.y + I.z * N.z) * N.y
    ∧ (Raytracer.Vector3.reflect I N).z = I.z - 2 * (I.x * N.x + I.y * N.y + I.z * N.z) * N.z
    ∧ Raytracer.Vector3.reflect I N
      = I.sub (N.mulScalar (2 * Raytracer.Vector3.dot I N)) := by
  refine ⟨?_, ?_, ?_, ?_⟩
  · simp only [Raytracer.Vector3.reflect, Raytracer.Vector3.sub, Raytracer.Vector3.mulScalar,
      Raytracer.Vector3.dot]
    ring
  · simp only [Raytracer.Vector3.reflect, Raytracer.Vector3.sub, Raytracer.Vector3.mulScalar,
      Raytracer.Vector3.dot]
    ring
  · simp only [Raytracer.Vector3.reflect, Raytracer.Vector3.sub, Raytracer.Vector3.mulScalar,
      Raytracer.Vector3.dot]
    ring
  · simp only [Raytracer.Vector3.reflect, mul_comm]

/-- C7: when `InverseAndTranspose` returns `RT_SUCCESS`, with
`inv = Adjoint(matrix) / Determinant(matrix)`: the fourth row and the fourth
column of `result` are those of `inv`, not transposed; the corner
`result.m[3][3]` is exactly 1; the 3x3 block is the transposed block of `inv`;
and `result` does not depend on its content before the call. -/
theorem C7_translation_copied_corner_one [LinearOrderedField α]
    (u : Raytracer.Matrix.Uninit α) (M R0 : Raytracer.Matrix α)
    (hok : (Raytracer.Matrix.InverseAndTranspose u M R0).1 = Raytracer.RT_SUCCESS) :
    (∀ i : Fin 4, i ≠ 3 →
      (Raytracer.Matrix.InverseAndTranspose u M R0).2.m 3 i
          = (Raytracer.Matrix.Adjoint u.adjSub M u.adjoint).m 3 i
            / Raytracer.Matrix.Determinant u.detSub M
      ∧ (Raytracer.Matrix.InverseAndTranspose u M R0).2.m i 3
          = (Raytracer.Matrix.Adjoint u.adjSub M u.adjoint).m i 3
            / Raytracer.Matrix.Determinant u.detSub M)
    ∧ (Raytracer.Matrix.InverseAndTranspose u M R0).2.m 3 3 = 1
    ∧ (∀ i j : Fin 4, i ≠ 3 → j ≠ 3 →
      (Raytracer.Matrix.InverseAndTranspose u M R0).2.m i j
          = (Raytracer.Matrix.Adjoint u.adjSub M u.adjoint).m j i
            / Raytracer.Matrix.Determinant u.detSub M)
    ∧ ∀ R0' : Raytracer.Matrix α,
      Raytracer.Matrix.InverseAndTranspose u M R0'
        = Raytracer.Matrix.InverseAndTranspose u M R0 := by
  have hdet := (success_iff u M R0).mp hok
  rw [← Determinant_eq_det u.detSub M] at hdet
  have hm : ∀ a b : Fin 4, (Raytracer.Matrix.InverseAndTranspose u M R0).2.m a b
      = if a.val < 3 ∧ b.val < 3
        then (Raytracer.Matrix.Adjoint u.adjSub M u.adjoint).m b a
          / Raytracer.Matrix.Determinant u.detSub M
        else if a.val = 3 ∧ b.val = 3 then 1
        else (Raytracer.Matrix.Adjoint u.adjSub M u.adjoint).m a b
          / Raytracer.Matrix.Determinant u.detSub M := by
    intro a b
    rw [InverseAndTranspose_snd, if_neg hdet, writeResult_m, invMatrixOf_m]
  refine ⟨fun i hi => ⟨?_, ?_⟩, ?_, fun i j hi hj => ?_, fun R0' => ?_⟩
  · rw [hm]
    fin_cases i <;> simp [val_three] at hi ⊢
  · rw [hm]
    fin_cases i <;> simp [val_three] at hi ⊢
  · rw [hm]
    simp [val_three]
  · rw [hm]
    fin_cases i <;> fin_cases j <;> simp [val_two] at hi hj ⊢
  · apply Prod.ext
    · rw [InverseAndTranspose_fst, InverseAndTranspose_fst]
    · apply Raytracer.Matrix.ext
      funext a b
      rw [hm, InverseAndTranspose_snd, if_neg hdet, writeResult_m, invMatrixOf_m]

/-- Witness of C7 at the sample model matrix. -/
theorem C7_translation_copied_corner_one_witness :
    (Raytracer.Matrix.InverseAndTranspose sampleUninit sampleModel sampleJunk).1
      = Raytracer.RT_SUCCESS
    ∧ (Raytracer.Matrix.InverseAndTranspose sampleUninit sampleModel sampleJunk).2.m 3 3 = 1 :=
  ⟨sampleModel_success sampleJunk,
    (C7_translation_copied_corner_one sampleUninit sampleModel sampleJunk
      (sampleModel_success sampleJunk)).2.1⟩

/-- C9: over the reals, for a vector with a nonzero component, `normalize`
replaces it by `v / sqrt(x^2+y^2+z^2)`; afterwards `x^2+y^2+z^2 = 1` and the
new vector is a positive multiple of the old one. -/
theorem C9_normalize_unit_length (v : Raytracer.Vector3 ℝ)
    (hv : v.x ≠ 0 ∨ v.y ≠ 0 ∨ v.z ≠ 0) :
    Raytracer.Vector3.normalize Real.sqrt v
      = v.div (Real.sqrt (v.x ^ 2 + v.y ^ 2 + v.z ^ 2))
    ∧ (Raytracer.Vector3.normalize Real.sqrt v).x ^ 2
        + (Raytracer.Vector3.normalize Real.sqrt v).y ^ 2
        + (Raytracer.Vector3.normalize Real.sqrt v).z ^ 2 = 1
    ∧ ∃ c : ℝ, 0 < c ∧ Raytracer.Vector3.normalize Real.sqrt v = v.mulScalar c := by
  have hpos : 0 < v.x * v.x + v.y * v.y + v.z * v.z := by
    rcases hv with h | h | h
    · nlinarith [mul_self_pos.mpr h, mul_self_nonneg v.y, mul_self_nonneg v.z]
    · nlinarith [mul_self_pos.mpr h, mul_self_nonneg v.x, mul_self_nonneg v.z]
    · nlinarith [mul_self_pos.mpr h, mul_self_nonneg v.x, mul_self_nonneg v.y]
  have hs : 0 < Real.sqrt (v.x * v.x + v.y * v.y + v.z * v.z) := Real.sqrt_pos.mpr hpos
  have hsq : Real.sqrt (v.x * v.x + v.y * v.y + v.z * v.z) ^ 2
      = v.x * v.x + v.y * v.y + v.z * v.z := Real.sq_sqrt hpos.le
  refine ⟨?_, ?_, ⟨(Real.sqrt (v.x * v.x + v.y * v.y + v.z * v.z))⁻¹, inv_pos.mpr hs, ?_⟩⟩
  · simp only [Raytracer.Vector3.normalize, Raytracer.Vector3.div, pow_two]
  · simp only [Raytracer.Vector3.normalize, div_pow, hsq]
    field_simp
    ring
  · simp only [Raytracer.Vector3.normalize, Raytracer.Vector3.mulScalar, div_eq_mul_inv]

/-- Witness of C9 at the vector `(3, 4, 0)`. -/
theorem C9_normalize_unit_length_witness :
    ((⟨3, 4, 0⟩ : Raytracer.Vector3 ℝ).x ≠ 0 ∨ (⟨3, 4, 0⟩ : Raytracer.Vector3 ℝ).y ≠ 0
      ∨ (⟨3, 4, 0⟩ : Raytracer.Vector3 ℝ).z ≠ 0)
    ∧ (Raytracer.Vector3.normalize Real.sqrt ⟨3, 4, 0⟩).x ^ 2
        + (Raytracer.Vector3.normalize Real.sqrt ⟨3, 4, 0⟩).y ^ 2
        + (Raytracer.Vector3.normalize Real.sqrt ⟨3, 4, 0⟩).z ^ 2 = 1 :=
  ⟨Or.inl (by norm_num),
    (C9_normalize_unit_length ⟨3, 4, 0⟩ (Or.inl (by norm_num))).2.1⟩

/-- C10: for every scene (intersection engine) and every ray, `Raycast` started
at depth 0 returns, and the reflection recursion nests at most `MAX_DEPTH = 5`
levels below the first call: at most `MAX_DEPTH + 1` calls are made, each with a
depth between 0 and `MAX_DEPTH`; a call with `depth >= MAX_DEPTH` makes no
further call. -/
theorem C10_reflection_depth_bounded [Ring α] (engine : Raytracer.Engine α)
    (ray : Raytracer.Ray α) :
    Raytracer.MAX_DEPTH = 5
    ∧ (Raytracer.Raycast engine ray 0).depths.length ≤ 5 + 1
    ∧ (∀ d ∈ (Raytracer.Raycast engine ray 0).depths, 0 ≤ d ∧ d ≤ Raytracer.MAX_DEPTH)
    ∧ ∀ (ray' : Raytracer.Ray α) (depth : Int), Raytracer.MAX_DEPTH ≤ depth →
        (Raytracer.Raycast engine ray' depth).depths = [depth] := by
  refine ⟨rfl, ?_, ?_, ?_⟩
  · exact (Raycast_depths_bound engine 5 ray 0 (by decide)).1
  · intro d hd
    have h := (Raycast_depths_bound engine 5 ray 0 (by decide)).2 d hd
    exact ⟨h.1, by simpa [Raytracer.MAX_DEPTH] using h.2⟩
  · intro ray' depth hdepth
    cases hh : engine.nearestHit ray' with
    | none => rw [Raycast_none engine ray' depth hh]
    | some hitInfo =>
      rw [Raycast_stop engine ray' depth hitInfo hh (fun hc => absurd hc.2 (not_lt.mpr hdepth))]

/-- Between mutually facing mirrors the bound of C10 is reached and not passed:
the calls have depths 0 to 5. -/
theorem facingMirrors_depths (ray : Raytracer.Ray ℚ) :
    (Raytracer.Raycast facingMirrors ray 0).depths = [0, 1, 2, 3, 4, 5] := by
  have hit : ∀ r : Raytracer.Ray ℚ, facingMirrors.nearestHit r
      = some ⟨r.origin, ⟨0, 0, 1⟩, 1, ⟨⟨1, 1, 1⟩, 0, 0, 0, 0, 1, "", true, 1 / 2⟩⟩ :=
    fun _ => rfl
  have step : ∀ (r : Raytracer.Ray ℚ) (d : Int), d < 5 →
      ∃ r' : Raytracer.Ray ℚ, (Raytracer.Raycast facingMirrors r d).depths
        = d :: (Raytracer.Raycast facingMirrors r' (d + 1)).depths :=
    fun r d hd => ⟨_, Raycast_reflect facingMirrors r d _ (hit r) ⟨rfl, hd⟩⟩
  have stop : ∀ (r : Raytracer.Ray ℚ) (d : Int), 5 ≤ d →
      (Raytracer.Raycast facingMirrors r d).depths = [d] :=
    fun r d hd => by
      rw [Raycast_stop facingMirrors r d _ (hit r) (fun hc => absurd hc.2 (not_lt.mpr hd))]
  obtain ⟨r1, h1⟩ := step ray 0 (by decide)
  obtain ⟨r2, h2⟩ := step r1 (0 + 1) (by decide)
  obtain ⟨r3, h3⟩ := step r2 (0 + 1 + 1) (by decide)
  obtain ⟨r4, h4⟩ := step r3 (0 + 1 + 1 + 1) (by decide)
  obtain ⟨r5, h5⟩ := step r4 (0 + 1 + 1 + 1 + 1) (by decide)
  rw [h1, h2, h3, h4, h5, stop r5 (0 + 1 + 1 + 1 + 1 + 1) (by decide)]
  rfl

/-- C15: invertibility does not imply success.  The uniform scale by `1e-4` is
a model matrix (fourth row `(0,0,0,1)`) with determinant `1e-12`, not zero, and
with the exact inverse "scale by `1e4`"; `InverseAndTranspose` returns
`RT_FAILURE` on it, for every content of its locals and of `result`. -/
theorem C15_invertible_but_rejected :
    (tinyScale.m 3 0 = 0 ∧ tinyScale.m 3 1 = 0 ∧ tinyScale.m 3 2 = 0 ∧ tinyScale.m 3 3 = 1)
    ∧ Matrix.det (Matrix.of tinyScale.m) = 1 / 10 ^ 12
    ∧ Matrix.det (Matrix.of tinyScale.m) ≠ 0
    ∧ Raytracer.Matrix.mul sampleJunk tinyScale (scale4 ⟨10000, 10000, 10000⟩) = scalar4 1
    ∧ Raytracer.Matrix.mul sampleJunk (scale4 ⟨10000, 10000, 10000⟩) tinyScale = scalar4 1
    ∧ ∀ (u : Raytracer.Matrix.Uninit ℚ) (R0 : Raytracer.Matrix ℚ),
        (Raytracer.Matrix.InverseAndTranspose u tinyScale R0).1 = Raytracer.RT_FAILURE := by
  refine ⟨⟨rfl, rfl, rfl, rfl⟩, det_tinyScale, ?_, ?_, ?_, tinyScale_failure⟩
  · rw [det_tinyScale]
    norm_num
  · apply Raytracer.Matrix.ext
    rw [mul_eq_mul]
    funext i j
    fin_cases i <;> fin_cases j <;>
      simp [Matrix.mul_apply, Fin.sum_univ_four, tinyScale, scale4, scalar4, Matrix.vecHead,
        Matrix.vecTail]
  · apply Raytracer.Matrix.ext
    rw [mul_eq_mul]
    funext i j
    fin_cases i <;> fin_cases j <;>
      simp [Matrix.mul_apply, Fin.sum_univ_four, tinyScale, scale4, scalar4, Matrix.vecHead,
        Matrix.vecTail]

/-- C16, as stated, fails in binary32 arithmetic.  With `N = (1, 0, 0)` and
`I = (2^127, 0, 0)` the doubling of `I.N` overflows and the second reflection
has NaN in its first component.  With `N = (0.6f, 0.8f, 0)`, for which the
code's `N.N` is 1, and `I = (1, 2, 3)` the second reflection has first
component `1 + 2^-22`. -/
theorem C16_float_reflect_twice_differs :
    Raytracer.Vector3.dot axisNormal32 axisNormal32 = 1
    ∧ (Raytracer.Vector3.reflect (Raytracer.Vector3.reflect hugeIncident32 axisNormal32)
        axisNormal32).x = Raytracer.Binary32.nan
    ∧ hugeIncident32.x ≠ Raytracer.Binary32.nan
    ∧ Raytracer.Vector3.dot slantNormal32 slantNormal32 = 1
    ∧ ((Raytracer.Vector3.reflect (Raytracer.Vector3.reflect sampleIncident32 slantNormal32)
        slantNormal32).x).toRat? = some (4194305 / 4194304)
    ∧ (sampleIncident32.x).toRat? = some 1 := by
  refine ⟨by decide, by decide, by decide, by decide, ?_, ?_⟩
  · have h : (Raytracer.Vector3.reflect
        (Raytracer.Vector3.reflect sampleIncident32 slantNormal32) slantNormal32).x
        = Raytracer.Binary32.finite false (4194305 * 2 ^ 127) := by decide
    rw [h]
    simp only [Raytracer.Binary32.toRat?]
    norm_num
  · have h : sampleIncident32.x = Raytracer.Binary32.finite false (1 * 2 ^ 149) := by decide
    rw [h, toRat_finite_pos]
    norm_num

/-- C16, amended: with arithmetic read as exact, for every vector `I` and every
unit-length normal `N` (`N.N = 1`), `reflect(reflect(I, N), N) = I`. -/
theorem C16_reflect_involution [CommRing α] (I N : Raytracer.Vector3 α)
    (hN : Raytracer.Vector3.dot N N = 1) :
    Raytracer.Vector3.reflect (Raytracer.Vector3.reflect I N) N = I := by
  simp only [Raytracer.Vector3.dot] at hN
  apply Raytracer.Vector3.ext
  · simp only [Raytracer.Vector3.reflect, Raytracer.Vector3.sub, Raytracer.Vector3.mulScalar,
      Raytracer.Vector3.dot]
    linear_combination (4 * N.x * (I.x * N.x + I.y * N.y + I.z * N.z)) * hN
  · simp only [Raytracer.Vector3.reflect, Raytracer.Vector3.sub, Raytracer.Vector3.mulScalar,
      Raytracer.Vector3.dot]
    linear_combination (4 * N.y * (I.x * N.x + I.y * N.y + I.z * N.z)) * hN
  · simp only [Raytracer.Vector3.reflect, Raytracer.Vector3.sub, Raytracer.Vector3.mulScalar,
      Raytracer.Vector3.dot]
    linear_combination (4 * N.z * (I.x * N.x + I.y * N.y + I.z * N.z)) * hN

/-- Witness of C16 at `I = (1, 2, 3)` and `N = (0, 0, 1)`. -/
theorem C16_reflect_involution_witness :
    Raytracer.Vector3.dot (⟨0, 0, 1⟩ : Raytracer.Vector3 ℚ) ⟨0, 0, 1⟩ = 1
    ∧ Raytracer.Vector3.reflect
        (Raytracer.Vector3.reflect (⟨1, 2, 3⟩ : Raytracer.Vector3 ℚ) ⟨0, 0, 1⟩) ⟨0, 0, 1⟩
      = ⟨1, 2, 3⟩ :=
  ⟨by norm_num [Raytracer.Vector3.dot],
    C16_reflect_involution ⟨1, 2, 3⟩ ⟨0, 0, 1⟩ (by norm_num [Raytracer.Vector3.dot])⟩

/-- C17, as stated, fails in binary32 arithmetic.  With `N = (0.6f, 0.8f, 0)`,
for which the code's `N.N` is 1, and `I = (1, 2, 3)`, `R = reflect(I, N)` has
`dot(R, R) = 14 + 2^-20` against `dot(I, I) = 14`, and `dot(R, N)` is not
`-dot(I, N)`.  With `N = (1, 0, 0)` and `I = (2^127, 0, 0)` both `dot(R, R)` and
`dot(R, N)` are NaN. -/
theorem C17_float_reflect_changes_length :
    Raytracer.Vector3.dot slantNormal32 slantNormal32 = 1
    ∧ (Raytracer.Vector3.dot (Raytracer.Vector3.reflect sampleIncident32 slantNormal32)
        (Raytracer.Vector3.reflect sampleIncident32 slantNormal32)).toRat?
      = some (14680065 / 1048576)
    ∧ (Raytracer.Vector3.dot sampleIncident32 sampleIncident32).toRat? = some 14
    ∧ Raytracer.Vector3.dot (Raytracer.Vector3.reflect sampleIncident32 slantNormal32)
        slantNormal32 ≠ -Raytracer.Vector3.dot sampleIncident32 slantNormal32
    ∧ Raytracer.Vector3.dot axisNormal32 axisNormal32 = 1
    ∧ Raytracer.Vector3.dot (Raytracer.Vector3.reflect hugeIncident32 axisNormal32)
        (Raytracer.Vector3.reflect hugeIncident32 axisNormal32) = Raytracer.Binary32.nan
    ∧ Raytracer.Vector3.dot (Raytracer.Vector3.reflect hugeIncident32 axisNormal32)
        axisNormal32 = Raytracer.Binary32.nan := by
  refine ⟨by decide, ?_, ?_, by decide, by decide, by decide, by decide⟩
  · have h : Raytracer.Vector3.dot (Raytracer.Vector3.reflect sampleIncident32 slantNormal32)
        (Raytracer.Vector3.reflect sampleIncident32 slantNormal32)
        = Raytracer.Binary32.finite false (14680065 * 2 ^ 129) := by decide
    rw [h]
    simp only [Raytracer.Binary32.toRat?]
    norm_num
  · have h : Raytracer.Vector3.dot sampleIncident32 sampleIncident32
        = Raytracer.Binary32.finite false (14 * 2 ^ 149) := by decide
    rw [h, toRat_finite_pos]
    norm_num

/-- C17, amended: with arithmetic read as exact, for every vector `I` and every
unit-length normal `N` (`N.N = 1`), with `R = reflect(I, N)`:
`dot(R, R) = dot(I, I)` and `dot(R, N) = -dot(I, N)`; so a normalised incident
direction yields a normalised reflected direction. -/
theorem C17_reflect_preserves_length [CommRing α] (I N : Raytracer.Vector3 α)
    (hN : Raytracer.Vector3.dot N N = 1) :
    Raytracer.Vector3.dot (Raytracer.Vector3.reflect I N) (Raytracer.Vector3.reflect I N)
      = Raytracer.Vector3.dot I I
    ∧ Raytracer.Vector3.dot (Raytracer.Vector3.reflect I N) N = -Raytracer.Vector3.dot I N
    ∧ (Raytracer.Vector3.dot I I = 1 →
        Raytracer.Vector3.dot (Raytracer.Vector3.reflect I N) (Raytracer.Vector3.reflect I N)
          = 1) := by
  simp only [Raytracer.Vector3.dot] at hN
  have h1 : Raytracer.Vector3.dot (Raytracer.Vector3.reflect I N) (Raytracer.Vector3.reflect I N)
      = Raytracer.Vector3.dot I I := by
    simp only [Raytracer.Vector3.reflect, Raytracer.Vector3.sub, Raytracer.Vector3.mulScalar,
      Raytracer.Vector3.dot]
    linear_combination (4 * (I.x * N.x + I.y * N.y + I.z * N.z) ^ 2) * hN
  refine ⟨h1, ?_, fun hI => h1.trans hI⟩
  simp only [Raytracer.Vector3.reflect, Raytracer.Vector3.sub, Raytracer.Vector3.mulScalar,
    Raytracer.Vector3.dot]
  linear_combination (-2 * (I.x * N.x + I.y * N.y + I.z * N.z)) * hN

/-- Witness of C17 at `I = (1, 2, 3)` and `N = (0, 0, 1)`. -/
theorem C17_reflect_preserves_length_witness :
    Raytracer.Vector3.dot (⟨0, 0, 1⟩ : Raytracer.Vector3 ℚ) ⟨0, 0, 1⟩ = 1
    ∧ Raytracer.Vector3.dot
        (Raytracer.Vector3.reflect (⟨1, 2, 3⟩ : Raytracer.Vector3 ℚ) ⟨0, 0, 1⟩) ⟨0, 0, 1⟩
      = -Raytracer.Vector3.dot (⟨1, 2, 3⟩ : Raytracer.Vector3 ℚ) ⟨0, 0, 1⟩ :=
  ⟨by norm_num [Raytracer.Vector3.dot],
    (C17_reflect_preserves_length ⟨1, 2, 3⟩ ⟨0, 0, 1⟩
      (by norm_num [Raytracer.Vector3.dot])).2.1⟩

/-- C18, as stated, fails in binary32 arithmetic: with `A` the scale by
`(3, 1, 1)`, `B` the translation by `(2^24, 0, 0)` (fourth row `(0,0,0,1)`) and
`p = (1, 0, 0)`, the first component of `(A * B).TransformPoint(p)` is 50331652
and that of `A.TransformPoint(B.TransformPoint(p))` is 50331648. -/
theorem C18_float_transform_differs :
    (farShiftEntries 3 0 = 0 ∧ farShiftEntries 3 1 = 0 ∧ farShiftEntries 3 2 = 0
      ∧ farShiftEntries 3 3 = 1)
    ∧ ((Raytracer.Matrix.TransformPoint
        (Raytracer.Matrix.mul sampleJunk32 (intMatrix tripleEntries)
          (intMatrix farShiftEntries)) axisNormal32).x).toRat? = some 50331652
    ∧ ((Raytracer.Matrix.TransformPoint (intMatrix tripleEntries)
        (Raytracer.Matrix.TransformPoint (intMatrix farShiftEntries)
          axisNormal32)).x).toRat? = some 50331648 := by
  refine ⟨by decide, ?_, ?_⟩
  · have h : (Raytracer.Matrix.TransformPoint
        (Raytracer.Matrix.mul sampleJunk32 (intMatrix tripleEntries)
          (intMatrix farShiftEntries)) axisNormal32).x
        = Raytracer.Binary32.finite false (50331652 * 2 ^ 149) := by decide
    rw [h, toRat_finite_pos]
    norm_num
  · have h : (Raytracer.Matrix.TransformPoint (intMatrix tripleEntries)
        (Raytracer.Matrix.TransformPoint (intMatrix farShiftEntries) axisNormal32)).x
        = Raytracer.Binary32.finite false (50331648 * 2 ^ 149) := by decide
    rw [h, toRat_finite_pos]
    norm_num

/-- C18, amended: with arithmetic read as exact, for every matrix `A`, every
matrix `B` whose fourth row is `(0,0,0,1)` and every point `p`,
`(A * B).TransformPoint(p) = A.TransformPoint(B.TransformPoint(p))`. -/
theorem C18_transform_point_of_product [CommRing α] (r A B : Raytracer.Matrix α)
    (p : Raytracer.Vector3 α)
    (hB : B.m 3 0 = 0 ∧ B.m 3 1 = 0 ∧ B.m 3 2 = 0 ∧ B.m 3 3 = 1) :
    Raytracer.Matrix.TransformPoint (Raytracer.Matrix.mul r A B) p
      = Raytracer.Matrix.TransformPoint A (Raytracer.Matrix.TransformPoint B p) := by
  obtain ⟨h0, h1, h2, h3⟩ := hB
  simp only [Raytracer.Matrix.TransformPoint, mul_eq_mul, Matrix.mul_apply, Fin.sum_univ_four,
    Matrix.of_apply, h0, h1, h2, h3]
  apply Raytracer.Vector3.ext <;> ring

/-- Witness of C18 at `A` the sample model matrix, `B` the translation by
`(1, 2, 3)` and `p = (1, 1, 1)`. -/
theorem C18_transform_point_of_product_witness :
    ((translation4 (⟨1, 2, 3⟩ : Raytracer.Vector3 ℚ)).m 3 0 = 0
      ∧ (translation4 (⟨1, 2, 3⟩ : Raytracer.Vector3 ℚ)).m 3 1 = 0
      ∧ (translation4 (⟨1, 2, 3⟩ : Raytracer.Vector3 ℚ)).m 3 2 = 0
      ∧ (translation4 (⟨1, 2, 3⟩ : Raytracer.Vector3 ℚ)).m 3 3 = 1)
    ∧ Raytracer.Matrix.TransformPoint
        (Raytracer.Matrix.mul sampleJunk sampleModel (translation4 ⟨1, 2, 3⟩)) ⟨1, 1, 1⟩
      = Raytracer.Matrix.TransformPoint sampleModel
          (Raytracer.Matrix.TransformPoint (translation4 ⟨1, 2, 3⟩) ⟨1, 1, 1⟩) :=
  ⟨⟨rfl, rfl, rfl, rfl⟩,
    C18_transform_point_of_product sampleJunk sampleModel (translation4 ⟨1, 2, 3⟩) ⟨1, 1, 1⟩
      ⟨rfl, rfl, rfl, rfl⟩⟩

/-- C13, as stated, fails in binary32 arithmetic: on the model matrix
`shiftedEntries` (fourth row `(0,0,0,1)`, determinant 3, translation `(8,4,0)`)
the code's `Determinant` rounds to 4, the call succeeds and writes the fourth
column `c = (-4102, 4103, 0)`, for which `A c = (-6, -3, 0)` and not
`-t = (-8, -4, 0)`. -/
theorem C13_float_translation_off :
    (shiftedEntries 3 0 = 0 ∧ shiftedEntries 3 1 = 0 ∧ shiftedEntries 3 2 = 0
      ∧ shiftedEntries 3 3 = 1)
    ∧ (Raytracer.Matrix.InverseAndTranspose32 sampleUninit32 (intMatrix shiftedEntries)
        sampleJunk32).1 = Raytracer.RT_SUCCESS
    ∧ translationOf (ratMatrix (Raytracer.Matrix.InverseAndTranspose32 sampleUninit32
        (intMatrix shiftedEntries) sampleJunk32).2) = ![-4102, 4103, 0]
    ∧ (upper3 (intMatrix shiftedEntries : Raytracer.Matrix ℚ)).mulVec ![-4102, 4103, 0]
      = ![-6, -3, 0]
    ∧ -translationOf (intMatrix shiftedEntries : Raytracer.Matrix ℚ) = ![-8, -4, 0]
    ∧ (upper3 (intMatrix shiftedEntries : Raytracer.Matrix ℚ)).mulVec
        (translationOf (ratMatrix (Raytracer.Matrix.InverseAndTranspose32 sampleUninit32
          (intMatrix shiftedEntries) sampleJunk32).2))
      ≠ -translationOf (intMatrix shiftedEntries : Raytracer.Matrix ℚ) := by
  have hc : translationOf (ratMatrix (Raytracer.Matrix.InverseAndTranspose32 sampleUninit32
      (intMatrix shiftedEntries) sampleJunk32).2) = ![-4102, 4103, 0] := by
    have h0 : (Raytracer.Matrix.InverseAndTranspose32 sampleUninit32
        (intMatrix shiftedEntries) sampleJunk32).2.m 0 3
        = Raytracer.Binary32.finite true (4102 * 2 ^ 149) := by decide
    have h1 : (Raytracer.Matrix.InverseAndTranspose32 sampleUninit32
        (intMatrix shiftedEntries) sampleJunk32).2.m 1 3
        = Raytracer.Binary32.finite false (4103 * 2 ^ 149) := by decide
    have h2 : (Raytracer.Matrix.InverseAndTranspose32 sampleUninit32
        (intMatrix shiftedEntries) sampleJunk32).2.m 2 3
        = Raytracer.Binary32.finite true (0 * 2 ^ 149) := by decide
    funext i
    fin_cases i
    · show (((Raytracer.Matrix.InverseAndTranspose32 sampleUninit32
        (intMatrix shiftedEntries) sampleJunk32).2.m 0 3).toRat?).getD 0 = _
      rw [h0, toRat_finite_neg]
      norm_num
    · show (((Raytracer.Matrix.InverseAndTranspose32 sampleUninit32
        (intMatrix shiftedEntries) sampleJunk32).2.m 1 3).toRat?).getD 0 = _
      rw [h1, toRat_finite_pos]
      norm_num
    · show (((Raytracer.Matrix.InverseAndTranspose32 sampleUninit32
        (intMatrix shiftedEntries) sampleJunk32).2.m 2 3).toRat?).getD 0 = _
      rw [h2, toRat_finite_neg]
      norm_num
  have e2 : (Fin.castSucc (2 : Fin 3) : Fin 4) = 2 := rfl
  have hAc : (upper3 (intMatrix shiftedEntries : Raytracer.Matrix ℚ)).mulVec ![-4102, 4103, 0]
      = ![-6, -3, 0] := by
    funext i
    fin_cases i <;>
      simp [upper3, intMatrix, shiftedEntries, Matrix.mulVec, Matrix.dotProduct,
        Fin.sum_univ_three, Matrix.vecHead, Matrix.vecTail, e2] <;> norm_num
  have ht : -translationOf (intMatrix shiftedEntries : Raytracer.Matrix ℚ) = ![-8, -4, 0] := by
    funext i
    fin_cases i <;>
      simp [translationOf, intMatrix, shiftedEntries, Matrix.vecHead, Matrix.vecTail, e2]
  refine ⟨by decide, by decide, hc, hAc, ht, ?_⟩
  rw [hc, hAc, ht]
  intro h
  have h0 := congrFun h 0
  norm_num at h0

/-- C13, amended: with arithmetic read as exact, for a model matrix `M` with
fourth row `(0,0,0,1)`, linear part `A` and translation column `t` on which
`InverseAndTranspose` succeeds, the output again has fourth row `(0,0,0,1)` and
its fourth column `c` is the translation of the inverse: `A c = -t`, that is
`c = -A⁻¹ t`. -/
theorem C13_affine_shape_preserved [LinearOrderedField α] (u : Raytracer.Matrix.Uninit α)
    (M R0 : Raytracer.Matrix α)
    (hrow : M.m 3 0 = 0 ∧ M.m 3 1 = 0 ∧ M.m 3 2 = 0 ∧ M.m 3 3 = 1)
    (hok : (Raytracer.Matrix.InverseAndTranspose u M R0).1 = Raytracer.RT_SUCCESS) :
    ((Raytracer.Matrix.InverseAndTranspose u M R0).2.m 3 0 = 0
      ∧ (Raytracer.Matrix.InverseAndTranspose u M R0).2.m 3 1 = 0
      ∧ (Raytracer.Matrix.InverseAndTranspose u M R0).2.m 3 2 = 0
      ∧ (Raytracer.Matrix.InverseAndTranspose u M R0).2.m 3 3 = 1)
    ∧ (upper3 M).mulVec (translationOf (Raytracer.Matrix.InverseAndTranspose u M R0).2)
      = -translationOf M
    ∧ translationOf (Raytracer.Matrix.InverseAndTranspose u M R0).2
      = -((upper3 M)⁻¹.mulVec (translationOf M)) := by
  have hrow3 : ∀ j : Fin 3, M.m 3 j.castSucc = 0 := by
    intro j
    fin_cases j
    · exact hrow.1
    · exact hrow.2.1
    · exact hrow.2.2.1
  have hleft := upper3_left_inverse u M R0 hrow3 hok
  have htr := success_translation u M R0 hrow hok
  refine ⟨success_last_row u M R0 hrow hok, htr, ?_⟩
  have hinv : (upper3 M)⁻¹
      = (upper3 (Raytracer.Matrix.InverseAndTranspose u M R0).2).transpose :=
    Matrix.inv_eq_left_inv hleft
  have hc : translationOf (Raytracer.Matrix.InverseAndTranspose u M R0).2
      = (upper3 (Raytracer.Matrix.InverseAndTranspose u M R0).2).transpose.mulVec
          ((upper3 M).mulVec
            (translationOf (Raytracer.Matrix.InverseAndTranspose u M R0).2)) := by
    rw [Matrix.mulVec_mulVec, hleft, Matrix.one_mulVec]
  rw [hinv, ← Matrix.mulVec_neg, ← htr]
  exact hc

/-- Witness of C13 at the sample model matrix (scale `(2,3,4)`, translation `(5,6,7)`). -/
theorem C13_affine_shape_preserved_witness :
    (sampleModel.m 3 0 = 0 ∧ sampleModel.m 3 1 = 0 ∧ sampleModel.m 3 2 = 0
      ∧ sampleModel.m 3 3 = 1)
    ∧ (Raytracer.Matrix.InverseAndTranspose sampleUninit sampleModel sampleJunk).1
      = Raytracer.RT_SUCCESS
    ∧ (upper3 sampleModel).mulVec
        (translationOf (Raytracer.Matrix.InverseAndTranspose sampleUninit sampleModel
          sampleJunk).2)
      = -translationOf sampleModel :=
  ⟨⟨rfl, rfl, rfl, rfl⟩, sampleModel_success sampleJunk,
    (C13_affine_shape_preserved sampleUninit sampleModel sampleJunk ⟨rfl, rfl, rfl, rfl⟩
      (sampleModel_success sampleJunk)).2.1⟩

/-- C14, as stated, fails in binary32 arithmetic: the model matrix
`shearEntries` has fourth row `(0,0,0,1)` and determinant exactly 1, yet the
code's `Determinant` is `16785408 - 16785408 = 0` and the first call already
returns `RT_FAILURE`. -/
theorem C14_float_first_call_fails :
    (shearEntries 3 0 = 0 ∧ shearEntries 3 1 = 0 ∧ shearEntries 3 2 = 0
      ∧ shearEntries 3 3 = 1)
    ∧ Matrix.det (Matrix.of (intMatrix shearEntries : Raytracer.Matrix ℤ).m) = 1
    ∧ (Raytracer.Matrix.Determinant sampleUninit32.detSub (intMatrix shearEntries)).toRat?
      = some 0
    ∧ (Raytracer.Matrix.InverseAndTranspose32 sampleUninit32 (intMatrix shearEntries)
        sampleJunk32).1 = Raytracer.RT_FAILURE := by
  refine ⟨by decide, ?_, ?_, by decide⟩
  · rw [← Determinant_eq_det (fun _ => ⟨fun _ _ => 0⟩)]
    decide
  · have h : Raytracer.Matrix.Determinant sampleUninit32.detSub (intMatrix shearEntries)
        = Raytracer.Binary32.finite false (0 * 2 ^ 149) := by decide
    rw [h, toRat_finite_pos]
    norm_num

/-- C14, amended: with arithmetic read as exact, for a model matrix `M` with
fourth row `(0,0,0,1)` and `1e-10 ≤ |det M| ≤ 1e10`, `InverseAndTranspose`
applied to `M` and then to its own output succeeds both times, and the
upper-left 3x3 block of the second output is the upper-left 3x3 block of `M`. -/
theorem C14_twice_is_identity_on_linear_part [LinearOrderedField α]
    (u u' : Raytracer.Matrix.Uninit α) (M R0 R0' : Raytracer.Matrix α)
    (hrow : M.m 3 0 = 0 ∧ M.m 3 1 = 0 ∧ M.m 3 2 = 0 ∧ M.m 3 3 = 1)
    (hlo : 1e-10 ≤ |Matrix.det (Matrix.of M.m)|)
    (hhi : |Matrix.det (Matrix.of M.m)| ≤ 1e10) :
    (Raytracer.Matrix.InverseAndTranspose u M R0).1 = Raytracer.RT_SUCCESS
    ∧ (Raytracer.Matrix.InverseAndTranspose u'
        (Raytracer.Matrix.InverseAndTranspose u M R0).2 R0').1 = Raytracer.RT_SUCCESS
    ∧ upper3 (Raytracer.Matrix.InverseAndTranspose u'
        (Raytracer.Matrix.InverseAndTranspose u M R0).2 R0').2 = upper3 M := by
  have hok : (Raytracer.Matrix.InverseAndTranspose u M R0).1 = Raytracer.RT_SUCCESS :=
    (success_iff u M R0).mpr (not_lt.mpr hlo)
  have hrow3 : ∀ j : Fin 3, M.m 3 j.castSucc = 0 := by
    intro j
    fin_cases j
    · exact hrow.1
    · exact hrow.2.1
    · exact hrow.2.2.1
  have hleft := upper3_left_inverse u M R0 hrow3 hok
  have hrowR := success_last_row u M R0 hrow hok
  have hrowR3 : ∀ j : Fin 3, (Raytracer.Matrix.InverseAndTranspose u M R0).2.m 3 j.castSucc = 0 := by
    intro j
    fin_cases j
    · exact hrowR.1
    · exact hrowR.2.1
    · exact hrowR.2.2.1
  have hdetmul : Matrix.det (Matrix.of (Raytracer.Matrix.InverseAndTranspose u M R0).2.m)
      * Matrix.det (Matrix.of M.m) = 1 := by
    have h := congrArg Matrix.det hleft
    rw [Matrix.det_mul, Matrix.det_transpose, Matrix.det_one] at h
    rw [det_eq_det_upper3 _ hrowR, det_eq_det_upper3 M hrow]
    exact h
  have hpos : 0 < |Matrix.det (Matrix.of M.m)| := lt_of_lt_of_le (by norm_num) hlo
  have habs : |Matrix.det (Matrix.of (Raytracer.Matrix.InverseAndTranspose u M R0).2.m)|
      * |Matrix.det (Matrix.of M.m)| = 1 := by
    rw [← abs_mul, hdetmul, abs_one]
  have hok2 : (Raytracer.Matrix.InverseAndTranspose u'
      (Raytracer.Matrix.InverseAndTranspose u M R0).2 R0').1 = Raytracer.RT_SUCCESS := by
    rw [success_iff]
    intro hlt
    have h1 : |Matrix.det (Matrix.of (Raytracer.Matrix.InverseAndTranspose u M R0).2.m)|
        * |Matrix.det (Matrix.of M.m)| < 1e-10 * 1e10 :=
      mul_lt_mul hlt hhi hpos (by norm_num)
    rw [habs] at h1
    norm_num at h1
  have hleft2 := upper3_left_inverse u' (Raytracer.Matrix.InverseAndTranspose u M R0).2 R0'
    hrowR3 hok2
  refine ⟨hok, hok2, ?_⟩
  have hright : upper3 (Raytracer.Matrix.InverseAndTranspose u M R0).2 * (upper3 M).transpose
      = 1 := by
    have h := congrArg Matrix.transpose (Matrix.mul_eq_one_comm.mp hleft)
    simpa [Matrix.transpose_mul] using h
  have heq : (upper3 (Raytracer.Matrix.InverseAndTranspose u'
      (Raytracer.Matrix.InverseAndTranspose u M R0).2 R0').2).transpose
      = (upper3 M).transpose := by
    calc (upper3 (Raytracer.Matrix.InverseAndTranspose u'
          (Raytracer.Matrix.InverseAndTranspose u M R0).2 R0').2).transpose
        = (upper3 (Raytracer.Matrix.InverseAndTranspose u'
            (Raytracer.Matrix.InverseAndTranspose u M R0).2 R0').2).transpose
          * (upper3 (Raytracer.Matrix.InverseAndTranspose u M R0).2
            * (upper3 M).transpose) := by rw [hright, mul_one]
      _ = (upper3 M).transpose := by rw [← mul_assoc, hleft2, one_mul]
  exact Matrix.transpose_injective heq

/-- Witness of C14 at the sample model matrix, whose determinant is 24. -/
theorem C14_twice_is_identity_on_linear_part_witness :
    (sampleModel.m 3 0 = 0 ∧ sampleModel.m 3 1 = 0 ∧ sampleModel.m 3 2 = 0
      ∧ sampleModel.m 3 3 = 1)
    ∧ (1e-10 : ℚ) ≤ |Matrix.det (Matrix.of sampleModel.m)|
    ∧ |Matrix.det (Matrix.of sampleModel.m)| ≤ (1e10 : ℚ)
    ∧ upper3 (Raytracer.Matrix.InverseAndTranspose sampleUninit
        (Raytracer.Matrix.InverseAndTranspose sampleUninit sampleModel sampleJunk).2
        sampleJunk).2 = upper3 sampleModel :=
  ⟨⟨rfl, rfl, rfl, rfl⟩, by rw [det_sampleModel]; norm_num, by rw [det_sampleModel]; norm_num,
    (C14_twice_is_identity_on_linear_part sampleUninit sampleUninit sampleModel sampleJunk
      sampleJunk ⟨rfl, rfl, rfl, rfl⟩ (by rw [det_sampleModel]; norm_num)
      (by rw [det_sampleModel]; norm_num)).2.2⟩

/-- C12, as stated, fails: `operator/` with the scalar zero and `normalize` on the
zero vector both divide by zero. -/
theorem C12_division_by_zero_reached :
    Raytracer.Vector3.divChecked (⟨1, 2, 3⟩ : Raytracer.Vector3 ℚ) 0 = none
    ∧ Raytracer.Vector3.normalizeChecked Real.sqrt (⟨0, 0, 0⟩ : Raytracer.Vector3 ℝ) = none := by
  refine ⟨?_, ?_⟩
  · rw [divChecked_eq]
    simp
  · rw [normalizeChecked_eq]
    simp

/-- C12, amended: `operator/` and `normalize` have no guard: `operator/` divides
by zero exactly when the scalar is zero, `normalize` (over the reals) exactly
when the vector is the zero vector, and otherwise they return what the plain
division gives; inside `InverseAndTranspose` the division by `det` is only
reached with `det ≠ 0`, so that call never divides by zero. -/
theorem C12_only_unguarded_divisions_fail [LinearOrderedField α] (v : Raytracer.Vector3 α)
    (s : α) (w : Raytracer.Vector3 ℝ) (u : Raytracer.Matrix.Uninit α)
    (M R0 : Raytracer.Matrix α) :
    (Raytracer.Vector3.divChecked v s = none ↔ s = 0)
    ∧ (s ≠ 0 → Raytracer.Vector3.divChecked v s = some (v.div s))
    ∧ (Raytracer.Vector3.normalizeChecked Real.sqrt w = none
        ↔ (w.x = 0 ∧ w.y = 0 ∧ w.z = 0))
    ∧ (¬ (w.x = 0 ∧ w.y = 0 ∧ w.z = 0) →
        Raytracer.Vector3.normalizeChecked Real.sqrt w = some (w.normalize Real.sqrt))
    ∧ Raytracer.Matrix.InverseAndTransposeChecked u M R0
        = some (Raytracer.Matrix.InverseAndTranspose u M R0)
    ∧ ((Raytracer.Matrix.InverseAndTranspose u M R0).1 = Raytracer.RT_SUCCESS →
        Raytracer.Matrix.Determinant u.detSub M ≠ 0) := by
  have hlen : Real.sqrt (w.x * w.x + w.y * w.y + w.z * w.z) = 0
      ↔ (w.x = 0 ∧ w.y = 0 ∧ w.z = 0) := by
    have hnn : 0 ≤ w.x * w.x + w.y * w.y + w.z * w.z := by
      nlinarith [mul_self_nonneg w.x, mul_self_nonneg w.y, mul_self_nonneg w.z]
    rw [Real.sqrt_eq_zero hnn]
    constructor
    · intro h
      have hx : w.x * w.x = 0 := by
        nlinarith [mul_self_nonneg w.x, mul_self_nonneg w.y, mul_self_nonneg w.z]
      have hy : w.y * w.y = 0 := by
        nlinarith [mul_self_nonneg w.x, mul_self_nonneg w.y, mul_self_nonneg w.z]
      have hz : w.z * w.z = 0 := by
        nlinarith [mul_self_nonneg w.x, mul_self_nonneg w.y, mul_self_nonneg w.z]
      exact ⟨mul_self_eq_zero.mp hx, mul_self_eq_zero.mp hy, mul_self_eq_zero.mp hz⟩
    · rintro ⟨hx, hy, hz⟩
      rw [hx, hy, hz]
      ring
  refine ⟨?_, ?_, ?_, ?_, InverseAndTransposeChecked_eq u M R0, ?_⟩
  · rw [divChecked_eq]
    by_cases h : s = 0 <;> simp [h]
  · intro h
    rw [divChecked_eq, if_neg h]
  · rw [normalizeChecked_eq, ← hlen]
    by_cases h : Real.sqrt (w.x * w.x + w.y * w.y + w.z * w.z) = 0 <;> simp [h]
  · intro h
    rw [normalizeChecked_eq, if_neg (fun h0 => h (hlen.mp h0))]
  · intro hok
    rw [InverseAndTranspose_fst] at hok
    by_cases h : |Raytracer.Matrix.Determinant u.detSub M| < 1e-10
    · rw [if_pos h] at hok
      exact absurd hok.symm RT_SUCCESS_ne_RT_FAILURE
    · exact ne_zero_of_not_small _ h

end RaytracerClaims
